import Mathlib

/-!
# deploy_static_site: a shallow embedding of `main.go`

The program is a webhook-triggered deployment daemon.  This development embeds
its four parts (`Config.Validate`, `rateLimit.CanRun`, `refreshSite` and the
`/refresh` handler registered by `main`) as pure functions and proves the
properties stated about them.

Conventions of the embedding:

* Go strings are Lean strings.  Every string the program compares comes out of
  `json.Unmarshal` (valid UTF-8) or is an ASCII literal, so equality and
  prefix tests on bytes and on characters agree.
* Go `error` values are represented by their message; `nil` is `none`.
* `int64` is the subtype of the integers between `-2^63` and `2^63 - 1`, and
  subtraction wraps around as in Go.
* Everything the program asks of its environment (the clock, the request body,
  the JSON decoder, the temporary directory, the external commands) is an
  input of the model.  Effects are recorded as a list of events, in order.
  Calls of `log.Printf` are not recorded.
-/

namespace DeployStaticSite

/-! ## Go primitives -/

/-- Go `error` values, represented by their message (`nil` is `none`). -/
abbrev error := String

/-- The least `int64`, `-2^63`. -/
def minInt64 : Int := -9223372036854775808

/-- The greatest `int64`, `2^63 - 1`. -/
def maxInt64 : Int := 9223372036854775807

/-- Go `int64`: the integers from `-2^63` to `2^63 - 1`. -/
abbrev int64 := {x : Int // minInt64 ≤ x ∧ x ≤ maxInt64}

/-- Reduction of an integer to its `int64` representative modulo `2^64`:
the result of a Go `int64` operation whose exact value is `x`. -/
def int64.wrap (x : Int) : int64 :=
  ⟨(x - minInt64) % 18446744073709551616 + minInt64, by
    unfold minInt64 maxInt64
    omega⟩

/-- Go `a - b` on `int64` (wraps around on overflow). -/
def int64.sub (a b : int64) : int64 := int64.wrap (a.val - b.val)

instance (n : Nat) : OfNat int64 n := ⟨int64.wrap n⟩

/-- Go `strings.HasPrefix(s, prefix)`. -/
def HasPrefix (s pre : String) : Bool := pre.data.isPrefixOf s.data

/-- Go `strings.TrimPrefix(s, prefix)`. -/
def TrimPrefix (s pre : String) : String :=
  if HasPrefix s pre then String.mk (s.data.drop pre.data.length) else s

/-- Go `strings.Join(elems, sep)`. -/
def Join (elems : List String) (sep : String) : String := sep.intercalate elems

/-- Go `fmt.Sprintf("%d", i)` for a slice index `i`. -/
def sprintfD (i : Nat) : String := Nat.repr i

/-! ## Data model -/

/-- The `options` struct handed to `refreshSite`. -/
structure options where
  GitURL : String
  GitBranch : String
  TargetDir : String
deriving DecidableEq, Repr

/-- The `BranchConfig` struct: one branch-to-directory mapping. -/
structure BranchConfig where
  Branch : String
  TargetDir : String
deriving DecidableEq, Repr

/-- The `Config` struct. -/
structure Config where
  GitURL : String
  Port : String
  BranchConfigs : List BranchConfig
deriving DecidableEq, Repr

/-- The `rateLimit` struct. -/
structure rateLimit where
  LastRun : int64
  Interval : int64
deriving DecidableEq

/-- The `WebhookPayload` struct. -/
structure WebhookPayload where
  Ref : String
deriving DecidableEq, Repr

/-! ## `Config.Validate` -/

/-- The `for i, branchConfig := range c.BranchConfigs` loop of `Validate`,
started at index `i` with the problems collected so far. -/
def Config.Validate.loop : Nat → List BranchConfig → List String → List String
  | _, [], problems => problems
  | i, branchConfig :: rest, problems =>
    let problems :=
      if branchConfig.Branch = "" then
        problems ++ ["branch config #" ++ sprintfD i ++ " (0-indexed) missing branch"]
      else problems
    let problems :=
      if branchConfig.TargetDir = "" then
        problems ++ ["branch config #" ++ sprintfD i ++ " (0-indexed) missing target_dir"]
      else problems
    Config.Validate.loop (i + 1) rest problems

/-- The slice `problems` of `Validate` when the function reaches
`if len(problems) > 0`. -/
def Config.Validate.problems (c : Config) : List String :=
  let problems : List String := []
  let problems := if c.GitURL = "" then problems ++ ["missing git_url"] else problems
  let problems := if c.Port = "" then problems ++ ["missing port"] else problems
  let problems :=
    if c.BranchConfigs.length = 0 then problems ++ ["missing branch_configs"] else problems
  Config.Validate.loop 0 c.BranchConfigs problems

/-- The method `func (c Config) Validate() error`. -/
def Config.Validate (c : Config) : Option error :=
  let problems := Config.Validate.problems c
  if problems.length > 0 then some (Join problems ", ") else none

/-! ## `rateLimit` -/

/-- The function `newRateLimit`. -/
def newRateLimit (interval : int64) : rateLimit :=
  { LastRun := 0, Interval := interval }

/-- The method `func (rl *rateLimit) CanRun() bool`, with the value of
`time.Now().Unix()` as the input `currentTime`.  The result is the returned
boolean and the limiter after the call. -/
def rateLimit.CanRun (rl : rateLimit) (currentTime : int64) : Bool × rateLimit :=
  if (int64.sub currentTime rl.Interval).val < rl.LastRun.val then
    (false, rl)
  else
    (true, { rl with LastRun := currentTime })

/-- A sequential run of `CanRun` calls on one limiter, one call per clock
reading: the booleans returned, in order, and the limiter after the run. -/
def rateLimit.runCalls : rateLimit → List int64 → List Bool × rateLimit
  | rl, [] => ([], rl)
  | rl, currentTime :: rest =>
    let first := rl.CanRun currentTime
    let others := rateLimit.runCalls first.2 rest
    (first.1 :: others.1, others.2)

/-- The least `int64` as a value, Go's `math.MinInt64`. -/
def MinInt64 : int64 := ⟨minInt64, by decide⟩

/-- The clock readings of the permitted calls of a run, in order. -/
def rateLimit.permittedTimes (rl : rateLimit) (readings : List int64) : List int64 :=
  ((readings.zip (rl.runCalls readings).1).filter fun call => call.2).map fun call => call.1

/-! ## The environment and its effects -/

/-- An `exec.Cmd` as built by `exec.Command(name, args...)`, with its `Dir`. -/
structure Cmd where
  Name : String
  Args : List String
  Dir : String
deriving DecidableEq, Repr

/-- The effects the program has on its environment. -/
inductive Event where
  /-- A call of `cmd.Run()`. -/
  | Run (cmd : Cmd)
  /-- The deferred call `os.Remove(path)`. -/
  | Remove (path : String)
  /-- A call of `refreshSite(opts)`. -/
  | RefreshSite (opts : options)
  /-- A call of `w.WriteHeader(status)`. -/
  | WriteHeader (status : Nat)
deriving DecidableEq, Repr

/-- What the environment answers while one request is handled. -/
structure World where
  /-- The value of `time.Now().Unix()`. -/
  Now : int64
  /-- The function `json.Unmarshal(bodyContent, &payload)`. -/
  Unmarshal : String → Except error WebhookPayload
  /-- The result of `ioutil.TempDir("", "website-files")`. -/
  TempDir : Except error String
  /-- The result of `cmd.Run()` for each command (`none` is `nil`). -/
  Run : Cmd → Option error

/-- The part of an `*http.Request` the handler reads: the method and the
result of `ioutil.ReadAll(r.Body)`. -/
structure Request where
  Method : String
  Body : Except error String

def StatusOK : Nat := 200
def StatusBadRequest : Nat := 400
def StatusMethodNotAllowed : Nat := 405
def StatusInternalServerError : Nat := 500

/-! ## `refreshSite` -/

/-- The command `exec.Command("git", "clone", "--depth", "1", "--branch",
options.GitBranch, options.GitURL, tmpDir)`. -/
def gitCmd (opts : options) (tmpDir : String) : Cmd :=
  { Name := "git"
    Args := ["clone", "--depth", "1", "--branch", opts.GitBranch, opts.GitURL, tmpDir]
    Dir := "" }

/-- The command `exec.Command("rsync", "-c", "-r", "--delete",
"--exclude=.well-known", "web/", options.TargetDir)` run in `tmpDir`. -/
def rsyncCmd (opts : options) (tmpDir : String) : Cmd :=
  { Name := "rsync"
    Args := ["-c", "-r", "--delete", "--exclude=.well-known", "web/", opts.TargetDir]
    Dir := tmpDir }

/-- The function `refreshSite`: the returned error and the effects, in order. -/
def refreshSite (world : World) (opts : options) : Option error × List Event :=
  match world.TempDir with
  | .error err => (some err, [])
  | .ok tmpDir =>
    match world.Run (gitCmd opts tmpDir) with
    | some err => (some err, [.Run (gitCmd opts tmpDir), .Remove tmpDir])
    | none =>
      match world.Run (rsyncCmd opts tmpDir) with
      | some err =>
        (some err, [.Run (gitCmd opts tmpDir), .Run (rsyncCmd opts tmpDir), .Remove tmpDir])
      | none =>
        (none, [.Run (gitCmd opts tmpDir), .Run (rsyncCmd opts tmpDir), .Remove tmpDir])

/-! ## `parseConfig` and the `/refresh` handler of `main` -/

/-- What the environment answers at startup. -/
structure Startup where
  /-- The slice `os.Args`. -/
  Args : List String
  /-- The function `ioutil.ReadFile`. -/
  ReadFile : String → Except error String
  /-- The function `json.Unmarshal(configContent, &config)`. -/
  Unmarshal : String → Except error Config

/-- The function `parseConfig`; `.error msg` is the exit through
`log.Fatalf` with message `msg`. -/
def parseConfig (s : Startup) : Except String Config :=
  if s.Args.length < 2 then
    .error "config file argument required"
  else
    let configFile := s.Args.getD 1 ""
    match s.ReadFile configFile with
    | .error err => .error ("error reading config file: " ++ err)
    | .ok configContent =>
      match s.Unmarshal configContent with
      | .error err => .error ("error parsing config file: " ++ err)
      | .ok config =>
        match config.Validate with
        | some err => .error ("invalid config content: " ++ err)
        | none => .ok config

/-- The loop `for _, branchConfig := range config.BranchConfigs` of the
handler, which sets `options.TargetDir` at the first match and breaks. -/
def findTargetDir (branch : String) : List BranchConfig → options → options
  | [], opts => opts
  | branchConfig :: rest, opts =>
    if branchConfig.Branch = branch then
      { opts with TargetDir := branchConfig.TargetDir }
    else
      findTargetDir branch rest opts

/-- The prefix `refPrefix` of the handler. -/
def refPrefix : String := "refs/heads/"

/-- The handler `main` registers for `/refresh`, run on a request with the
limiter `rl`: the limiter after the request and the effects, in order. -/
def refreshHandler (config : Config) (world : World) (rl : rateLimit) (r : Request) :
    rateLimit × List Event :=
  let opts : options := { GitURL := config.GitURL, GitBranch := "", TargetDir := "" }
  if r.Method ≠ "POST" then
    (rl, [.WriteHeader StatusMethodNotAllowed])
  else
    let canRun := rl.CanRun world.Now
    let rl := canRun.2
    if !canRun.1 then
      (rl, [.WriteHeader StatusInternalServerError])
    else
      match r.Body with
      | .error _ => (rl, [.WriteHeader StatusInternalServerError])
      | .ok bodyContent =>
        match world.Unmarshal bodyContent with
        | .error _ => (rl, [.WriteHeader StatusInternalServerError])
        | .ok payload =>
          if !HasPrefix payload.Ref refPrefix then
            (rl, [.WriteHeader StatusBadRequest])
          else
            let branch := TrimPrefix payload.Ref refPrefix
            let opts := { opts with GitBranch := branch }
            let opts := findTargetDir branch config.BranchConfigs opts
            if opts.TargetDir = "" then
              (rl, [.WriteHeader StatusOK])
            else
              let refreshed := refreshSite world opts
              match refreshed.1 with
              | some _ =>
                (rl, .RefreshSite opts :: refreshed.2 ++ [.WriteHeader StatusInternalServerError])
              | none =>
                (rl, .RefreshSite opts :: refreshed.2 ++ [.WriteHeader StatusOK])

/-- The state of the running server: the validated configuration and the one
limiter shared by all requests. -/
structure Server where
  config : Config
  rateLimit : rateLimit

/-- The function `main` up to `http.ListenAndServe`: the server state the
handler closes over, or the fatal message of `parseConfig`. -/
def main (s : Startup) : Except String Server :=
  match parseConfig s with
  | .error msg => .error msg
  | .ok config => .ok { config := config, rateLimit := newRateLimit 10 }

/-- Requests handled one at a time, each handler returning before the next
starts, each with what the environment answers while it is handled: the
effects of all of them, in order, and the limiter after the last.  Handlers
that overlap are modelled by `runSchedule`. -/
def serve (config : Config) : rateLimit → List (World × Request) → List Event × rateLimit
  | rl, [] => ([], rl)
  | rl, (world, r) :: rest =>
    let handled := refreshHandler config world rl r
    let others := serve config handled.1 rest
    (handled.2 ++ others.1, others.2)

/-! ## Concurrent requests

`net/http` runs every handler in its own goroutine, and the handlers share the
one `rateLimit` of `main` without a lock.  A handler reads the limiter in the
test of `CanRun` (`currentTime-rl.Interval < rl.LastRun`) and writes it in the
assignment `rl.LastRun = currentTime`; between the two another handler may
run. -/

/-- The handler from the point where `rateLimit.CanRun()` has returned true
(from `ioutil.ReadAll(r.Body)` on); this part does not touch the limiter. -/
def afterCanRun (config : Config) (world : World) (r : Request) : List Event :=
  let opts : options := { GitURL := config.GitURL, GitBranch := "", TargetDir := "" }
  match r.Body with
  | .error _ => [.WriteHeader StatusInternalServerError]
  | .ok bodyContent =>
    match world.Unmarshal bodyContent with
    | .error _ => [.WriteHeader StatusInternalServerError]
    | .ok payload =>
      if !HasPrefix payload.Ref refPrefix then
        [.WriteHeader StatusBadRequest]
      else
        let branch := TrimPrefix payload.Ref refPrefix
        let opts := { opts with GitBranch := branch }
        let opts := findTargetDir branch config.BranchConfigs opts
        if opts.TargetDir = "" then
          [.WriteHeader StatusOK]
        else
          let refreshed := refreshSite world opts
          match refreshed.1 with
          | some _ =>
            .RefreshSite opts :: refreshed.2 ++ [.WriteHeader StatusInternalServerError]
          | none =>
            .RefreshSite opts :: refreshed.2 ++ [.WriteHeader StatusOK]

/-- A handler goroutine between two accesses of the shared limiter. -/
inductive Goroutine where
  /-- The request has arrived; nothing has run yet. -/
  | received (world : World) (r : Request)
  /-- The method is POST and the test of `CanRun` has found the call
  permitted; the assignment `rl.LastRun = currentTime` has not run yet. -/
  | tested (world : World) (r : Request)
  /-- The handler has returned, with these effects. -/
  | responded (events : List Event)

/-- The effects of a goroutine that has returned (none before that). -/
def Goroutine.events : Goroutine → List Event
  | .received _ _ => []
  | .tested _ _ => []
  | .responded events => events

/-- One step of a goroutine on the shared limiter.  From `received` it runs
the method check and the test of `CanRun`, which reads the limiter; from
`tested` it runs the assignment `rl.LastRun = currentTime` and the rest of
the handler. -/
def Goroutine.step (config : Config) (rl : rateLimit) : Goroutine → rateLimit × Goroutine
  | .received world r =>
    if r.Method ≠ "POST" then
      (rl, .responded [.WriteHeader StatusMethodNotAllowed])
    else if (int64.sub world.Now rl.Interval).val < rl.LastRun.val then
      (rl, .responded [.WriteHeader StatusInternalServerError])
    else
      (rl, .tested world r)
  | .tested world r =>
    ({ rl with LastRun := world.Now }, .responded (afterCanRun config world r))
  | .responded events => (rl, .responded events)

/-- The goroutines run under a schedule: each entry of the schedule names the
goroutine that takes the next step. -/
def runSchedule (config : Config) :
    rateLimit → List Goroutine → List Nat → rateLimit × List Goroutine
  | rl, goroutines, [] => (rl, goroutines)
  | rl, goroutines, i :: rest =>
    match goroutines[i]? with
    | none => runSchedule config rl goroutines rest
    | some g =>
      let stepped := g.step config rl
      runSchedule config stepped.1 (goroutines.set i stepped.2) rest

/-- The statuses written by `w.WriteHeader`, in order. -/
def statuses : List Event → List Nat
  | [] => []
  | .WriteHeader status :: rest => status :: statuses rest
  | _ :: rest => statuses rest

/-- The arguments of the calls of `refreshSite`, in order. -/
def refreshCalls : List Event → List options
  | [] => []
  | .RefreshSite opts :: rest => opts :: refreshCalls rest
  | _ :: rest => refreshCalls rest

/-- The commands run, in order. -/
def commandsRun : List Event → List Cmd
  | [] => []
  | .Run cmd :: rest => cmd :: commandsRun rest
  | _ :: rest => commandsRun rest

/-! ## Example inputs -/

/-- A configuration with two mappings. -/
def exampleConfig : Config :=
  { GitURL := "https://example.org/site.git"
    Port := "8080"
    BranchConfigs := [⟨"main", "/srv/a"⟩, ⟨"dev", "/srv/b"⟩] }

/-- A startup at which the configuration file holds `exampleConfig`. -/
def exampleStartup : Startup :=
  { Args := ["deploy_static_site", "config.json"]
    ReadFile := fun _ => .ok "config"
    Unmarshal := fun _ => .ok exampleConfig }

/-- A world at clock reading `now` in which the body parses to the ref `ref`
and the external commands succeed. -/
def exampleWorld (now : int64) (ref : String) : World :=
  { Now := now
    Unmarshal := fun _ => .ok { Ref := ref }
    TempDir := .ok "/tmp/website-files1"
    Run := fun _ => none }

/-- The options of a refresh of branch main under `exampleConfig`. -/
def exampleMainOptions : options :=
  { GitURL := "https://example.org/site.git", GitBranch := "main", TargetDir := "/srv/a" }

/-- A POST request whose body can be read. -/
def examplePost : Request := { Method := "POST", Body := .ok "body" }

/-! ## The requirements on a configuration, as the specification words them -/

/-- The ways a configuration can violate a requirement. -/
inductive Violation where
  /-- The source URL is empty. -/
  | missingGitURL
  /-- The port is empty. -/
  | missingPort
  /-- The mapping list is empty. -/
  | missingBranchConfigs
  /-- The mapping at position `i` has an empty branch. -/
  | missingBranch (i : Nat)
  /-- The mapping at position `i` has an empty target directory. -/
  | missingTargetDir (i : Nat)
deriving DecidableEq, Repr

/-- The entry of the error message that reports a violation. -/
def Violation.entry : Violation → String
  | .missingGitURL => "missing git_url"
  | .missingPort => "missing port"
  | .missingBranchConfigs => "missing branch_configs"
  | .missingBranch i => "branch config #" ++ Nat.repr i ++ " (0-indexed) missing branch"
  | .missingTargetDir i => "branch config #" ++ Nat.repr i ++ " (0-indexed) missing target_dir"

/-- The place of a violation in the order of the error message: missing
git_url, missing port, missing branch_configs, then for each position `i` in
increasing order the missing branch followed by the missing target_dir. -/
def Violation.rank : Violation → Nat
  | .missingGitURL => 0
  | .missingPort => 1
  | .missingBranchConfigs => 2
  | .missingBranch i => 2 * i + 3
  | .missingTargetDir i => 2 * i + 4

/-- The configuration `c` violates the requirement named by the violation. -/
def Config.violates (c : Config) : Violation → Prop
  | .missingGitURL => c.GitURL = ""
  | .missingPort => c.Port = ""
  | .missingBranchConfigs => c.BranchConfigs = []
  | .missingBranch i => (c.BranchConfigs[i]?).map BranchConfig.Branch = some ""
  | .missingTargetDir i => (c.BranchConfigs[i]?).map BranchConfig.TargetDir = some ""

instance (c : Config) (v : Violation) : Decidable (c.violates v) := by
  cases v <;> unfold Config.violates <;> infer_instance

/-- The violations of the mapping `bc` at position `i`: branch first, then
target directory. -/
def mappingViolations (entry : Nat × BranchConfig) : List Violation :=
  (if entry.2.Branch = "" then [Violation.missingBranch entry.1] else []) ++
    (if entry.2.TargetDir = "" then [Violation.missingTargetDir entry.1] else [])

/-- The violations of a configuration in the order of the specification:
missing git_url, missing port, missing branch_configs, then the mappings by
increasing zero-based position. -/
def Config.violations (c : Config) : List Violation :=
  (if c.GitURL = "" then [Violation.missingGitURL] else []) ++
    (if c.Port = "" then [Violation.missingPort] else []) ++
    (if c.BranchConfigs = [] then [Violation.missingBranchConfigs] else []) ++
    c.BranchConfigs.enum.flatMap mappingViolations

/-! ## The steps of a request, as the specification words them -/

/-- The request passes the method check, the rate check, the body read and
the parse, and its ref is `refs/heads/` followed by the branch name `b`. -/
def Resolves (world : World) (rl : rateLimit) (r : Request) (b : String) : Prop :=
  r.Method = "POST" ∧ (rl.CanRun world.Now).1 = true ∧
    ∃ body payload, r.Body = .ok body ∧ world.Unmarshal body = .ok payload ∧
      payload.Ref = "refs/heads/" ++ b

/-- The mapping `bc` is the first mapping of `l` (lowest index) whose branch
equals `b`. -/
def FirstMatch (l : List BranchConfig) (b : String) (bc : BranchConfig) : Prop :=
  ∃ pre post, l = pre ++ bc :: post ∧ (∀ x ∈ pre, x.Branch ≠ b) ∧ bc.Branch = b

/-! # Theorems -/

/-! ## `Config.Validate` -/

theorem Validate_loop_eq (l : List BranchConfig) :
    ∀ (i : Nat) (acc : List String),
      Config.Validate.loop i l acc =
        acc ++ ((l.enumFrom i).flatMap mappingViolations).map Violation.entry := by
  induction l with
  | nil => intro i acc; simp [Config.Validate.loop]
  | cons bc rest ih =>
    intro i acc
    simp only [Config.Validate.loop, List.enumFrom_cons, List.flatMap_cons, List.map_append, ih]
    by_cases hb : bc.Branch = "" <;> by_cases ht : bc.TargetDir = "" <;>
      simp [mappingViolations, hb, ht, Violation.entry, sprintfD]

theorem Validate_problems_eq (c : Config) :
    Config.Validate.problems c = c.violations.map Violation.entry := by
  unfold Config.Validate.problems Config.violations
  rw [Validate_loop_eq]
  by_cases hu : c.GitURL = "" <;> by_cases hp : c.Port = "" <;>
    by_cases hl : c.BranchConfigs = [] <;>
    simp [hu, hp, hl, Violation.entry, List.enum]

theorem mem_mappingViolations (v : Violation) (i : Nat) (bc : BranchConfig) :
    v ∈ mappingViolations (i, bc) ↔
      (v = .missingBranch i ∧ bc.Branch = "") ∨ (v = .missingTargetDir i ∧ bc.TargetDir = "") := by
  unfold mappingViolations
  by_cases hb : bc.Branch = "" <;> by_cases ht : bc.TargetDir = "" <;> simp [hb, ht]

theorem mem_violations_iff (c : Config) (v : Violation) :
    v ∈ c.violations ↔ c.violates v := by
  unfold Config.violations
  simp only [List.mem_append, List.mem_flatMap, Prod.exists, mem_mappingViolations,
    List.mk_mem_enum_iff_getElem?]
  cases v with
  | missingGitURL => by_cases hu : c.GitURL = "" <;> simp [hu, Config.violates]
  | missingPort => by_cases hu : c.Port = "" <;> simp [hu, Config.violates]
  | missingBranchConfigs => by_cases hu : c.BranchConfigs = [] <;> simp [hu, Config.violates]
  | missingBranch i =>
    by_cases hu : c.GitURL = "" <;> by_cases hp : c.Port = "" <;>
      by_cases hl : c.BranchConfigs = [] <;>
      simp [hu, hp, hl, Config.violates] <;>
      exact ⟨fun ⟨_, b, h1, h2, h3⟩ => ⟨b, h2 ▸ h1, h3⟩, fun ⟨a, h1, h2⟩ => ⟨i, a, h1, rfl, h2⟩⟩
  | missingTargetDir i =>
    by_cases hu : c.GitURL = "" <;> by_cases hp : c.Port = "" <;>
      by_cases hl : c.BranchConfigs = [] <;>
      simp [hu, hp, hl, Config.violates] <;>
      exact ⟨fun ⟨_, b, h1, h2, h3⟩ => ⟨b, h2 ▸ h1, h3⟩, fun ⟨a, h1, h2⟩ => ⟨i, a, h1, rfl, h2⟩⟩

theorem mem_flatMap_enumFrom (l : List BranchConfig) (n : Nat) (v : Violation)
    (h : v ∈ (l.enumFrom n).flatMap mappingViolations) :
    ∃ i, n ≤ i ∧ (v = .missingBranch i ∨ v = .missingTargetDir i) := by
  simp only [List.mem_flatMap, Prod.exists, mem_mappingViolations] at h
  obtain ⟨i, bc, hmem, hv⟩ := h
  have hle : n ≤ i := (List.mk_mem_enumFrom_iff_le_and_getElem?_sub.mp hmem).1
  rcases hv with ⟨hv, _⟩ | ⟨hv, _⟩
  · exact ⟨i, hle, Or.inl hv⟩
  · exact ⟨i, hle, Or.inr hv⟩

theorem nodup_flatMap_enumFrom (l : List BranchConfig) :
    ∀ n : Nat, ((l.enumFrom n).flatMap mappingViolations).Nodup := by
  induction l with
  | nil => intro n; simp
  | cons bc rest ih =>
    intro n
    rw [List.enumFrom_cons, List.flatMap_cons, List.nodup_append]
    refine ⟨?_, ih (n + 1), ?_⟩
    · unfold mappingViolations
      by_cases hb : bc.Branch = "" <;> by_cases ht : bc.TargetDir = "" <;> simp [hb, ht]
    · intro v hv hv2
      obtain ⟨i, hle, hi⟩ := mem_flatMap_enumFrom rest (n + 1) v hv2
      rw [mem_mappingViolations] at hv
      rcases hv with ⟨hv, _⟩ | ⟨hv, _⟩ <;> rcases hi with hi | hi <;> rw [hv] at hi <;>
        simp at hi <;> omega

theorem nodup_violations (c : Config) : c.violations.Nodup := by
  unfold Config.violations
  rw [List.nodup_append]
  refine ⟨?_, nodup_flatMap_enumFrom _ 0, ?_⟩
  · by_cases hu : c.GitURL = "" <;> by_cases hp : c.Port = "" <;>
      by_cases hl : c.BranchConfigs = [] <;> simp [hu, hp, hl]
  · intro v hv hv2
    obtain ⟨i, _, hi⟩ := mem_flatMap_enumFrom _ 0 v hv2
    simp only [List.mem_append] at hv
    rcases hi with hi | hi <;> subst hi <;>
      by_cases hu : c.GitURL = "" <;> by_cases hp : c.Port = "" <;>
      by_cases hl : c.BranchConfigs = [] <;> simp [hu, hp, hl] at hv

theorem pairwise_rank_flatMap_enumFrom (l : List BranchConfig) :
    ∀ n : Nat, ((l.enumFrom n).flatMap mappingViolations).Pairwise
      (fun a b => a.rank < b.rank) := by
  induction l with
  | nil => intro n; simp
  | cons bc rest ih =>
    intro n
    rw [List.enumFrom_cons, List.flatMap_cons, List.pairwise_append]
    refine ⟨?_, ih (n + 1), ?_⟩
    · unfold mappingViolations
      by_cases hb : bc.Branch = "" <;> by_cases ht : bc.TargetDir = "" <;>
        simp [hb, ht, Violation.rank]
    · intro v hv w hw
      obtain ⟨i, hle, hi⟩ := mem_flatMap_enumFrom rest (n + 1) w hw
      rw [mem_mappingViolations] at hv
      rcases hv with ⟨hv, _⟩ | ⟨hv, _⟩ <;> rcases hi with hi | hi <;> subst hv <;> subst hi <;>
        simp only [Violation.rank] <;> omega

theorem pairwise_rank_violations (c : Config) :
    c.violations.Pairwise (fun a b => a.rank < b.rank) := by
  unfold Config.violations
  rw [List.pairwise_append]
  refine ⟨?_, pairwise_rank_flatMap_enumFrom _ 0, ?_⟩
  · by_cases hu : c.GitURL = "" <;> by_cases hp : c.Port = "" <;>
      by_cases hl : c.BranchConfigs = [] <;> simp [hu, hp, hl, Violation.rank]
  · intro v hv w hw
    obtain ⟨i, _, hi⟩ := mem_flatMap_enumFrom _ 0 w hw
    simp only [List.mem_append] at hv
    have hv3 : v = .missingGitURL ∨ v = .missingPort ∨ v = .missingBranchConfigs := by
      rcases hv with (hv | hv) | hv
      · split at hv <;> simp at hv
        exact Or.inl hv
      · split at hv <;> simp at hv
        exact Or.inr (Or.inl hv)
      · split at hv <;> simp at hv
        exact Or.inr (Or.inr hv)
    rcases hv3 with rfl | rfl | rfl <;> rcases hi with rfl | rfl <;>
      simp only [Violation.rank] <;> omega

theorem violates_none_iff (c : Config) :
    (∀ v, ¬ c.violates v) ↔
      c.GitURL ≠ "" ∧ c.Port ≠ "" ∧ c.BranchConfigs ≠ [] ∧
        ∀ bc ∈ c.BranchConfigs, bc.Branch ≠ "" ∧ bc.TargetDir ≠ "" := by
  constructor
  · intro h
    refine ⟨h .missingGitURL, h .missingPort, h .missingBranchConfigs, ?_⟩
    intro bc hbc
    obtain ⟨i, hi⟩ := List.mem_iff_getElem?.mp hbc
    constructor
    · intro hb
      exact h (.missingBranch i) (by simp [Config.violates, hi, hb])
    · intro ht
      exact h (.missingTargetDir i) (by simp [Config.violates, hi, ht])
  · rintro ⟨hu, hp, hl, hall⟩ v hv
    cases v with
    | missingGitURL => exact hu hv
    | missingPort => exact hp hv
    | missingBranchConfigs => exact hl hv
    | missingBranch i =>
      simp only [Config.violates, Option.map_eq_some'] at hv
      obtain ⟨bc, hi, hb⟩ := hv
      exact (hall bc (List.mem_iff_getElem?.mpr ⟨i, hi⟩)).1 hb
    | missingTargetDir i =>
      simp only [Config.violates, Option.map_eq_some'] at hv
      obtain ⟨bc, hi, hb⟩ := hv
      exact (hall bc (List.mem_iff_getElem?.mpr ⟨i, hi⟩)).2 hb

theorem Validate_eq_none_iff_violations (c : Config) :
    c.Validate = none ↔ c.violations = [] := by
  unfold Config.Validate
  simp only [Validate_problems_eq, List.length_map]
  cases hv : c.violations <;> simp

theorem Validate_eq_none_iff (c : Config) :
    c.Validate = none ↔
      c.GitURL ≠ "" ∧ c.Port ≠ "" ∧ c.BranchConfigs ≠ [] ∧
        ∀ bc ∈ c.BranchConfigs, bc.Branch ≠ "" ∧ bc.TargetDir ≠ "" := by
  rw [Validate_eq_none_iff_violations, ← violates_none_iff, List.eq_nil_iff_forall_not_mem]
  exact forall_congr' fun v => not_congr (mem_violations_iff c v)

/-- C1: `Validate` returns nil exactly when git_url, port and branch_configs
are non-empty and every mapping has a non-empty branch and a non-empty
target_dir; in every other case it returns a non-nil error. -/
theorem Validate_nil_iff (c : Config) :
    (c.Validate = none ↔
      c.GitURL ≠ "" ∧ c.Port ≠ "" ∧ c.BranchConfigs ≠ [] ∧
        ∀ bc ∈ c.BranchConfigs, bc.Branch ≠ "" ∧ bc.TargetDir ≠ "") ∧
    ((∃ err, c.Validate = some err) ↔
      ¬ (c.GitURL ≠ "" ∧ c.Port ≠ "" ∧ c.BranchConfigs ≠ [] ∧
        ∀ bc ∈ c.BranchConfigs, bc.Branch ≠ "" ∧ bc.TargetDir ≠ "")) := by
  refine ⟨Validate_eq_none_iff c, ?_⟩
  rw [← Validate_eq_none_iff c]
  cases c.Validate <;> simp

/-- C2: when a configuration violates a requirement, the error message of
`Validate` is the ", "-join of one entry per violation, in the order missing
git_url, missing port, missing branch_configs, then for each mapping by
increasing zero-based position its missing branch and its missing
target_dir; each violated requirement is reported exactly once, so the number
of entries is the number of violations. -/
theorem Validate_reports_every_violation (c : Config) (h : ∃ v, c.violates v) :
    c.Validate = some (Join (c.violations.map Violation.entry) ", ") ∧
    (Config.Validate.problems c).length = c.violations.length ∧
    (∀ v, v ∈ c.violations ↔ c.violates v) ∧
    c.violations.Nodup ∧
    c.violations.Pairwise (fun a b => a.rank < b.rank) := by
  refine ⟨?_, ?_, mem_violations_iff c, nodup_violations c, pairwise_rank_violations c⟩
  · obtain ⟨v, hv⟩ := h
    have hmem := (mem_violations_iff c v).mpr hv
    unfold Config.Validate
    simp only [Validate_problems_eq, List.length_map]
    rw [if_pos (List.length_pos_of_mem hmem)]
  · rw [Validate_problems_eq, List.length_map]

/-- Witness for C2: empty URL, empty port and empty mapping list give the
3-part message. -/
theorem Validate_reports_every_violation_witness :
    (∃ v, (Config.mk "" "" []).violates v) ∧
    (Config.mk "" "" []).Validate =
      some "missing git_url, missing port, missing branch_configs" :=
  ⟨⟨.missingGitURL, rfl⟩,
    (Validate_reports_every_violation (Config.mk "" "" []) ⟨.missingGitURL, rfl⟩).1⟩

/-! ## `rateLimit` -/

theorem int64.sub_val_of_range (a b : int64)
    (hlo : minInt64 ≤ a.val - b.val) (hhi : a.val - b.val ≤ maxInt64) :
    (int64.sub a b).val = a.val - b.val := by
  unfold int64.sub int64.wrap
  unfold minInt64 at hlo
  unfold maxInt64 at hhi
  simp only [minInt64]
  omega

theorem int64.val_ten : (10 : int64).val = 10 := by decide

theorem int64.val_zero : (0 : int64).val = 0 := by decide

theorem CanRun_ten (rl : rateLimit) (now : int64) (hi : rl.Interval = 10)
    (hnow : minInt64 + 10 ≤ now.val) :
    rl.CanRun now =
      if now.val - 10 < rl.LastRun.val then (false, rl) else (true, ⟨now, 10⟩) := by
  have hsub : (int64.sub now rl.Interval).val = now.val - 10 := by
    have hmax := now.property.2
    rw [int64.sub_val_of_range] <;> rw [hi, int64.val_ten] <;> omega
  unfold rateLimit.CanRun
  rw [hsub]
  by_cases h : now.val - 10 < rl.LastRun.val
  · simp [h]
  · simp [h, hi]

/-- C3, as stated, fails where `now - Interval` overflows `int64`.  With
`LastRun = 0` and `Interval = 10`, at clock reading `-2^63` the difference
`-2^63 - 10` is below `LastRun`, yet the call is permitted and sets `LastRun`.
With `LastRun = 0` and `Interval = -2^63`, at clock reading 1793797085 the
difference `1793797085 + 2^63` is not below `LastRun`, yet the call is
refused. -/
theorem CanRun_overflow_fails :
    (MinInt64.val - (10 : int64).val < (0 : int64).val ∧
      (rateLimit.mk 0 10).CanRun MinInt64 = (true, { LastRun := MinInt64, Interval := 10 })) ∧
    (¬ (1793797085 : int64).val - MinInt64.val < (0 : int64).val ∧
      (rateLimit.mk 0 MinInt64).CanRun 1793797085 =
        (false, { LastRun := 0, Interval := MinInt64 })) := by
  decide

/-- C3, amended: for every limiter and every clock reading `now` for which
the difference `now - Interval` does not overflow `int64` (it lies between
`-2^63` and `2^63 - 1`), `CanRun` returns false and leaves the limiter
unchanged when `now - Interval < LastRun`, and otherwise returns true, sets
`LastRun` to `now` and leaves `Interval` unchanged. -/
theorem CanRun_without_overflow (rl : rateLimit) (now : int64)
    (hlo : minInt64 ≤ now.val - rl.Interval.val)
    (hhi : now.val - rl.Interval.val ≤ maxInt64) :
    (now.val - rl.Interval.val < rl.LastRun.val → rl.CanRun now = (false, rl)) ∧
    (¬ now.val - rl.Interval.val < rl.LastRun.val →
      rl.CanRun now = (true, { LastRun := now, Interval := rl.Interval })) := by
  have hsub := int64.sub_val_of_range now rl.Interval hlo hhi
  constructor
  · intro h
    simp [rateLimit.CanRun, hsub, h]
  · intro h
    simp [rateLimit.CanRun, hsub, h]

/-- Witness for C3, amended: a limiter last run at 1700000000 with interval
10 refuses a call at 1700000005 and permits a call at 1700000010. -/
theorem CanRun_without_overflow_witness :
    (minInt64 ≤ (1700000005 : int64).val - (10 : int64).val ∧
      (1700000005 : int64).val - (10 : int64).val ≤ maxInt64) ∧
    (rateLimit.mk 1700000000 10).CanRun 1700000005 = (false, rateLimit.mk 1700000000 10) ∧
    (rateLimit.mk 1700000000 10).CanRun 1700000010 = (true, rateLimit.mk 1700000010 10) :=
  ⟨by decide,
    (CanRun_without_overflow (rateLimit.mk 1700000000 10) 1700000005
      (by decide) (by decide)).1 (by decide),
    (CanRun_without_overflow (rateLimit.mk 1700000000 10) 1700000010
      (by decide) (by decide)).2 (by decide)⟩

/-- C4, as stated, fails: on a fresh limiter a first call at clock reading 5
(five seconds after the epoch) is refused and leaves `LastRun` at 0. -/
theorem first_CanRun_refused_before_ten :
    (newRateLimit 10).CanRun 5 = (false, newRateLimit 10) := by decide

/-- C4, amended: on a limiter freshly built by `newRateLimit(10)` the first
call is permitted for every clock reading `now ≥ 10`: it returns true and sets
`LastRun` to `now`. -/
theorem first_CanRun_permitted (now : int64) (h : 10 ≤ now.val) :
    (newRateLimit 10).CanRun now = (true, { LastRun := now, Interval := 10 }) := by
  have hnow : minInt64 + 10 ≤ now.val := by unfold minInt64; omega
  rw [CanRun_ten _ now rfl hnow]
  have h0 : (newRateLimit 10).LastRun.val = 0 := int64.val_zero
  rw [if_neg (by omega)]

/-- Witness for C4, amended: the first call at clock reading 1700000000. -/
theorem first_CanRun_permitted_witness :
    (10 : Int) ≤ (1700000000 : int64).val ∧
    (newRateLimit 10).CanRun 1700000000 =
      (true, { LastRun := 1700000000, Interval := 10 }) :=
  ⟨by decide, first_CanRun_permitted 1700000000 (by decide)⟩

theorem runCalls_append (rl : rateLimit) (a b : List int64) :
    rl.runCalls (a ++ b) =
      ((rl.runCalls a).1 ++ ((rl.runCalls a).2.runCalls b).1,
        ((rl.runCalls a).2.runCalls b).2) := by
  induction a generalizing rl with
  | nil => simp [rateLimit.runCalls]
  | cons t rest ih => simp [rateLimit.runCalls, ih]

theorem permittedTimes_cons (rl : rateLimit) (t : int64) (rest : List int64) :
    rl.permittedTimes (t :: rest) =
      if (rl.CanRun t).1 then t :: (rl.CanRun t).2.permittedTimes rest
      else (rl.CanRun t).2.permittedTimes rest := by
  unfold rateLimit.permittedTimes
  cases h : (rl.CanRun t).1 <;> simp [rateLimit.runCalls, List.filter_cons, h]

theorem CanRun_interval (rl : rateLimit) (t : int64) :
    (rl.CanRun t).2.Interval = rl.Interval := by
  unfold rateLimit.CanRun
  split <;> rfl

theorem runCalls_interval (rl : rateLimit) (l : List int64) :
    (rl.runCalls l).2.Interval = rl.Interval := by
  induction l generalizing rl with
  | nil => rfl
  | cons t rest ih => simp [rateLimit.runCalls, ih, CanRun_interval]

theorem runCalls_all_refused (rl : rateLimit) (l : List int64)
    (h : ∀ ok ∈ (rl.runCalls l).1, ok = false) : (rl.runCalls l).2 = rl := by
  induction l generalizing rl with
  | nil => rfl
  | cons t rest ih =>
    simp only [rateLimit.runCalls, List.mem_cons, forall_eq_or_imp] at h ⊢
    have hstate : (rl.CanRun t).2 = rl := by
      have h1 := h.1
      unfold rateLimit.CanRun at h1 ⊢
      split
      · rfl
      · rename_i hlt
        simp [hlt] at h1
    rw [hstate] at h ⊢
    exact ih rl h.2

theorem CanRun_lastRun_mono (rl : rateLimit) (t : int64) (hi : rl.Interval = 10)
    (ht : minInt64 + 10 ≤ t.val) : rl.LastRun.val ≤ (rl.CanRun t).2.LastRun.val := by
  rw [CanRun_ten rl t hi ht]
  split
  · exact le_refl _
  · show rl.LastRun.val ≤ t.val
    omega

theorem runCalls_lastRun_mono (rl : rateLimit) (l : List int64) (hi : rl.Interval = 10)
    (hrange : ∀ t ∈ l, minInt64 + 10 ≤ t.val) :
    rl.LastRun.val ≤ (rl.runCalls l).2.LastRun.val := by
  induction l generalizing rl with
  | nil => exact le_refl _
  | cons t rest ih =>
    simp only [rateLimit.runCalls]
    have h1 := CanRun_lastRun_mono rl t hi (hrange t (List.mem_cons_self _ _))
    have h2 := ih (rl.CanRun t).2 (by rw [CanRun_interval, hi])
      (fun x hx => hrange x (List.mem_cons_of_mem _ hx))
    omega

theorem permittedTimes_lower_bound (rl : rateLimit) (l : List int64) (hi : rl.Interval = 10)
    (hrange : ∀ t ∈ l, minInt64 + 10 ≤ t.val) :
    ∀ x ∈ rl.permittedTimes l, rl.LastRun.val + 10 ≤ x.val := by
  induction l generalizing rl with
  | nil => intro x hx; simp [rateLimit.permittedTimes] at hx
  | cons t rest ih =>
    intro x hx
    have ht := hrange t (List.mem_cons_self _ _)
    have hmono := CanRun_lastRun_mono rl t hi ht
    have hrest := ih (rl.CanRun t).2 (by rw [CanRun_interval, hi])
      (fun y hy => hrange y (List.mem_cons_of_mem _ hy))
    rw [permittedTimes_cons] at hx
    have hcan := CanRun_ten rl t hi ht
    by_cases hlt : t.val - 10 < rl.LastRun.val
    · rw [if_pos hlt] at hcan
      rw [hcan] at hx hrest
      simp only [Bool.false_eq_true, if_false] at hx
      exact hrest x hx
    · rw [if_neg hlt] at hcan
      rw [hcan] at hx hrest
      simp only [if_true, List.mem_cons] at hx
      rcases hx with rfl | hx
      · omega
      · have := hrest x hx
        simp only at this
        omega

theorem permittedTimes_pairwise (rl : rateLimit) (l : List int64) (hi : rl.Interval = 10)
    (hrange : ∀ t ∈ l, minInt64 + 10 ≤ t.val) :
    (rl.permittedTimes l).Pairwise (fun a b => a.val + 10 ≤ b.val) := by
  induction l generalizing rl with
  | nil => simp [rateLimit.permittedTimes]
  | cons t rest ih =>
    have ht := hrange t (List.mem_cons_self _ _)
    have hi2 : (rl.CanRun t).2.Interval = 10 := by rw [CanRun_interval, hi]
    have hr2 : ∀ y ∈ rest, minInt64 + 10 ≤ y.val :=
      fun y hy => hrange y (List.mem_cons_of_mem _ hy)
    have hrest := ih (rl.CanRun t).2 hi2 hr2
    have hlow := permittedTimes_lower_bound (rl.CanRun t).2 rest hi2 hr2
    rw [permittedTimes_cons]
    have hcan := CanRun_ten rl t hi ht
    by_cases hlt : t.val - 10 < rl.LastRun.val
    · rw [if_pos hlt] at hcan
      rw [hcan] at hrest ⊢
      simpa using hrest
    · rw [if_neg hlt] at hcan
      rw [hcan] at hrest hlow ⊢
      simp only [if_true, List.pairwise_cons]
      exact ⟨fun x hx => hlow x hx, hrest⟩

/-- C5, as stated, fails.  In the run 100, 110, 115 on a fresh limiter the
call at 100 is permitted and the later call at 115 is refused although
115 ≥ 100 + 10, because the call at 110 was permitted in between.  And in the
run of two calls at clock reading `-2^63` both are permitted, zero seconds
apart, because `now - 10` wraps around. -/
theorem minimum_interval_fails :
    ((newRateLimit 10).runCalls [100, 110, 115]).1 = [true, true, false] ∧
    (100 : int64).val + 10 ≤ (115 : int64).val ∧
    ((newRateLimit 10).runCalls [MinInt64, MinInt64]).1 = [true, true] ∧
    (newRateLimit 10).permittedTimes [MinInt64, MinInt64] = [MinInt64, MinInt64] := by
  decide

/-- C5, amended: in every sequential run of `CanRun` calls on a limiter with
`Interval = 10` whose clock readings are at least `-2^63 + 10`, after a call
permitted at time `t` a later call at time `t'` with `t ≤ t' < t + 10` returns
false and leaves the limiter unchanged; a later call at `t' ≥ t + 10` returns
true and sets `LastRun` to `t'` when no call between the two was permitted;
and any two permitted calls of the run have clock readings at least 10 apart.
A run is the run of a prefix followed by the run of the rest on the limiter
the prefix leaves. -/
theorem minimum_interval (lastRun : int64) (readings : List int64)
    (hrange : ∀ t ∈ readings, minInt64 + 10 ≤ t.val) :
    (∀ a b : List int64, (rateLimit.mk lastRun 10).runCalls (a ++ b) =
      (((rateLimit.mk lastRun 10).runCalls a).1 ++
          (((rateLimit.mk lastRun 10).runCalls a).2.runCalls b).1,
        (((rateLimit.mk lastRun 10).runCalls a).2.runCalls b).2)) ∧
    (∀ (pre : List int64) (t : int64) (mid : List int64) (t' : int64) (post : List int64),
      readings = pre ++ t :: (mid ++ t' :: post) →
      ((((rateLimit.mk lastRun 10).runCalls pre).2).CanRun t).1 = true →
        (t.val ≤ t'.val → t'.val < t.val + 10 →
          (((rateLimit.mk lastRun 10).runCalls (pre ++ t :: mid)).2).CanRun t' =
            (false, ((rateLimit.mk lastRun 10).runCalls (pre ++ t :: mid)).2)) ∧
        ((∀ ok ∈ ((((rateLimit.mk lastRun 10).runCalls pre).2.CanRun t).2.runCalls mid).1,
            ok = false) →
          t.val + 10 ≤ t'.val →
          (((rateLimit.mk lastRun 10).runCalls (pre ++ t :: mid)).2).CanRun t' =
            (true, { LastRun := t', Interval := 10 }))) ∧
    ((rateLimit.mk lastRun 10).permittedTimes readings).Pairwise
      (fun a b => a.val + 10 ≤ b.val) := by
  refine ⟨runCalls_append _, ?_, permittedTimes_pairwise _ readings rfl hrange⟩
  intro pre t mid t' post hsplit hperm
  have ht : minInt64 + 10 ≤ t.val := hrange t (by rw [hsplit]; simp)
  have ht' : minInt64 + 10 ≤ t'.val := hrange t' (by rw [hsplit]; simp)
  have hmid : ∀ x ∈ mid, minInt64 + 10 ≤ x.val :=
    fun x hx => hrange x (by rw [hsplit]; simp [hx])
  have hi0 : ((rateLimit.mk lastRun 10).runCalls pre).2.Interval = 10 :=
    runCalls_interval _ _
  have hbefore : ((rateLimit.mk lastRun 10).runCalls (pre ++ t :: mid)).2 =
      ((((rateLimit.mk lastRun 10).runCalls pre).2.CanRun t).2.runCalls mid).2 := by
    rw [runCalls_append]
    simp only [rateLimit.runCalls]
  rw [hbefore]
  generalize ((rateLimit.mk lastRun 10).runCalls pre).2 = s0 at hperm hi0 ⊢
  have hstate : (s0.CanRun t).2 = { LastRun := t, Interval := 10 } := by
    have hcan := CanRun_ten s0 t hi0 ht
    by_cases hlt : t.val - 10 < s0.LastRun.val
    · rw [if_pos hlt] at hcan
      rw [hcan] at hperm
      simp at hperm
    · rw [if_neg hlt] at hcan
      rw [hcan]
  rw [hstate]
  have hi1 : ((rateLimit.mk t 10).runCalls mid).2.Interval = 10 := runCalls_interval _ _
  have hmono : t.val ≤ ((rateLimit.mk t 10).runCalls mid).2.LastRun.val :=
    runCalls_lastRun_mono (rateLimit.mk t 10) mid rfl hmid
  constructor
  · intro _ hlt
    rw [CanRun_ten _ t' hi1 ht', if_pos (by omega)]
  · intro hrefused hge
    rw [runCalls_all_refused _ mid hrefused, CanRun_ten _ t' rfl ht']
    rw [if_neg (by simp only; omega)]

/-- Witness for C5, amended: the run 100, 105, 110, 115, 125 on a fresh
limiter, split at the permitted call at 110 and the call at 125. -/
theorem minimum_interval_witness :
    (∀ t ∈ ([100, 105, 110, 115, 125] : List int64), minInt64 + 10 ≤ t.val) ∧
    ((rateLimit.mk 0 10).runCalls [100, 105, 110, 115]).2.CanRun 125 =
      (true, { LastRun := 125, Interval := 10 }) ∧
    ((rateLimit.mk 0 10).permittedTimes [100, 105, 110, 115, 125]).Pairwise
      (fun a b => a.val + 10 ≤ b.val) :=
  ⟨by decide,
    ((minimum_interval 0 [100, 105, 110, 115, 125] (by decide)).2.1
      [100, 105] 110 [115] 125 [] rfl (by decide)).2 (by decide) (by decide),
    (minimum_interval 0 [100, 105, 110, 115, 125] (by decide)).2.2⟩

/-! ## Strings -/

theorem HasPrefix_iff (s pre : String) : HasPrefix s pre = true ↔ ∃ b, s = pre ++ b := by
  unfold HasPrefix
  rw [List.isPrefixOf_iff_prefix]
  constructor
  · rintro ⟨t, ht⟩
    refine ⟨String.mk t, ?_⟩
    apply String.ext
    simp [String.data_append, ht]
  · rintro ⟨b, rfl⟩
    exact ⟨b.data, by simp [String.data_append]⟩

theorem TrimPrefix_append (pre b : String) : TrimPrefix (pre ++ b) pre = b := by
  unfold TrimPrefix
  rw [if_pos ((HasPrefix_iff _ _).mpr ⟨b, rfl⟩)]
  apply String.ext
  simp [String.data_append]

/-! ## Branch resolution -/

theorem findTargetDir_of_first_match (b : String) (opts : options)
    (pre : List BranchConfig) (bc : BranchConfig) (post : List BranchConfig)
    (hpre : ∀ x ∈ pre, x.Branch ≠ b) (hbc : bc.Branch = b) :
    findTargetDir b (pre ++ bc :: post) opts = { opts with TargetDir := bc.TargetDir } := by
  induction pre with
  | nil => simp [findTargetDir, hbc]
  | cons x rest ih =>
    have hx : x.Branch ≠ b := hpre x (List.mem_cons_self _ _)
    simp only [List.cons_append, findTargetDir, if_neg hx]
    exact ih (fun y hy => hpre y (List.mem_cons_of_mem _ hy))

theorem findTargetDir_of_no_match (b : String) (opts : options) (l : List BranchConfig)
    (hl : ∀ x ∈ l, x.Branch ≠ b) : findTargetDir b l opts = opts := by
  induction l with
  | nil => rfl
  | cons x rest ih =>
    have hx : x.Branch ≠ b := hl x (List.mem_cons_self _ _)
    simp only [findTargetDir, if_neg hx]
    exact ih (fun y hy => hl y (List.mem_cons_of_mem _ hy))

/-! ## `refreshSite` -/

theorem refreshSite_of_tempDir_error (world : World) (opts : options) (e : error)
    (htmp : world.TempDir = .error e) : refreshSite world opts = (some e, []) := by
  unfold refreshSite
  rw [htmp]

theorem refreshSite_of_git_error (world : World) (opts : options) (tmpDir : String)
    (e : error) (htmp : world.TempDir = .ok tmpDir)
    (hgit : world.Run (gitCmd opts tmpDir) = some e) :
    refreshSite world opts = (some e, [.Run (gitCmd opts tmpDir), .Remove tmpDir]) := by
  unfold refreshSite
  rw [htmp]
  simp only
  rw [hgit]

theorem refreshSite_of_rsync_error (world : World) (opts : options) (tmpDir : String)
    (e : error) (htmp : world.TempDir = .ok tmpDir)
    (hgit : world.Run (gitCmd opts tmpDir) = none)
    (hrsync : world.Run (rsyncCmd opts tmpDir) = some e) :
    refreshSite world opts =
      (some e, [.Run (gitCmd opts tmpDir), .Run (rsyncCmd opts tmpDir), .Remove tmpDir]) := by
  unfold refreshSite
  rw [htmp]
  simp only
  rw [hgit]
  simp only
  rw [hrsync]

theorem refreshSite_of_success (world : World) (opts : options) (tmpDir : String)
    (htmp : world.TempDir = .ok tmpDir)
    (hgit : world.Run (gitCmd opts tmpDir) = none)
    (hrsync : world.Run (rsyncCmd opts tmpDir) = none) :
    refreshSite world opts =
      (none, [.Run (gitCmd opts tmpDir), .Run (rsyncCmd opts tmpDir), .Remove tmpDir]) := by
  unfold refreshSite
  rw [htmp]
  simp only
  rw [hgit]
  simp only
  rw [hrsync]

/-- C8: in `refreshSite` a failing clone prevents the sync.  If the git
command returns an error, that error is returned and git is the only command
run; if rsync is run at all, the clone before it succeeded and the commands
run are git then rsync; and `refreshSite` returns nil exactly when the
temporary directory was created and both commands succeed. -/
theorem refreshSite_clone_failure_skips_sync (world : World) (opts : options) :
    (∀ tmpDir err, world.TempDir = .ok tmpDir → world.Run (gitCmd opts tmpDir) = some err →
      (refreshSite world opts).1 = some err ∧
      commandsRun (refreshSite world opts).2 = [gitCmd opts tmpDir] ∧
      ∀ cmd ∈ commandsRun (refreshSite world opts).2, cmd.Name ≠ "rsync") ∧
    (∀ cmd ∈ commandsRun (refreshSite world opts).2, cmd.Name = "rsync" →
      ∃ tmpDir, world.TempDir = .ok tmpDir ∧ world.Run (gitCmd opts tmpDir) = none ∧
        commandsRun (refreshSite world opts).2 = [gitCmd opts tmpDir, rsyncCmd opts tmpDir]) ∧
    ((refreshSite world opts).1 = none ↔
      ∃ tmpDir, world.TempDir = .ok tmpDir ∧ world.Run (gitCmd opts tmpDir) = none ∧
        world.Run (rsyncCmd opts tmpDir) = none) := by
  refine ⟨?_, ?_, ?_⟩
  · intro tmpDir err htmp hgit
    rw [refreshSite_of_git_error world opts tmpDir err htmp hgit]
    simp [commandsRun, gitCmd]
  · intro cmd
    cases htmp : world.TempDir with
    | error e =>
      rw [refreshSite_of_tempDir_error world opts e htmp]
      simp [commandsRun]
    | ok tmpDir =>
      cases hgit : world.Run (gitCmd opts tmpDir) with
      | some e =>
        rw [refreshSite_of_git_error world opts tmpDir e htmp hgit]
        simp only [commandsRun, List.mem_singleton]
        intro hc hn
        rw [hc] at hn
        simp [gitCmd] at hn
      | none =>
        intro _ _
        refine ⟨tmpDir, rfl, hgit, ?_⟩
        cases hrsync : world.Run (rsyncCmd opts tmpDir) with
        | some e =>
          rw [refreshSite_of_rsync_error world opts tmpDir e htmp hgit hrsync]
          simp [commandsRun]
        | none =>
          rw [refreshSite_of_success world opts tmpDir htmp hgit hrsync]
          simp [commandsRun]
  · cases htmp : world.TempDir with
    | error e =>
      rw [refreshSite_of_tempDir_error world opts e htmp]
      simp
    | ok tmpDir =>
      cases hgit : world.Run (gitCmd opts tmpDir) with
      | some e =>
        rw [refreshSite_of_git_error world opts tmpDir e htmp hgit]
        simp [hgit]
      | none =>
        cases hrsync : world.Run (rsyncCmd opts tmpDir) with
        | some e =>
          rw [refreshSite_of_rsync_error world opts tmpDir e htmp hgit hrsync]
          simp [hgit, hrsync]
        | none =>
          rw [refreshSite_of_success world opts tmpDir htmp hgit hrsync]
          simp [hgit, hrsync]

/-- Witness for C8: a world in which the clone fails. -/
theorem refreshSite_clone_failure_skips_sync_witness :
    (refreshSite
        { Now := 0, Unmarshal := fun _ => .error "unused", TempDir := .ok "/tmp/w",
          Run := fun cmd => if cmd.Name = "git" then some "exit status 128" else none }
        { GitURL := "u", GitBranch := "main", TargetDir := "/srv/a" }).1 =
      some "exit status 128" :=
  ((refreshSite_clone_failure_skips_sync
      { Now := 0, Unmarshal := fun _ => .error "unused", TempDir := .ok "/tmp/w",
        Run := fun cmd => if cmd.Name = "git" then some "exit status 128" else none }
      { GitURL := "u", GitBranch := "main", TargetDir := "/srv/a" }).1
    "/tmp/w" "exit status 128" rfl rfl).1

/-! ## The `/refresh` handler -/

theorem CanRun_refused_state (rl : rateLimit) (now : int64)
    (h : (rl.CanRun now).1 = false) : (rl.CanRun now).2 = rl := by
  unfold rateLimit.CanRun at h ⊢
  split
  · rfl
  · rename_i hlt
    simp [hlt] at h

theorem CanRun_permitted_state (rl : rateLimit) (now : int64)
    (h : (rl.CanRun now).1 = true) :
    (rl.CanRun now).2 = { LastRun := now, Interval := rl.Interval } := by
  unfold rateLimit.CanRun at h ⊢
  split
  · rename_i hlt
    simp [hlt] at h
  · rfl

theorem handler_not_post (config : Config) (world : World) (rl : rateLimit) (r : Request)
    (hm : r.Method ≠ "POST") :
    refreshHandler config world rl r = (rl, [.WriteHeader StatusMethodNotAllowed]) := by
  unfold refreshHandler
  simp only [ne_eq, hm, not_false_eq_true, if_true]

theorem handler_refused (config : Config) (world : World) (rl : rateLimit) (r : Request)
    (hm : r.Method = "POST") (hcan : (rl.CanRun world.Now).1 = false) :
    refreshHandler config world rl r = (rl, [.WriteHeader StatusInternalServerError]) := by
  unfold refreshHandler
  simp only [ne_eq, hm, not_true_eq_false, if_false, hcan, Bool.not_false, if_true,
    CanRun_refused_state rl world.Now hcan]

theorem handler_body_error (config : Config) (world : World) (rl : rateLimit) (r : Request)
    (e : error) (hm : r.Method = "POST") (hcan : (rl.CanRun world.Now).1 = true)
    (hbody : r.Body = .error e) :
    refreshHandler config world rl r =
      ((rl.CanRun world.Now).2, [.WriteHeader StatusInternalServerError]) := by
  unfold refreshHandler
  simp only [ne_eq, hm, not_true_eq_false, if_false, hcan, Bool.not_true, hbody,
    Bool.false_eq_true]

theorem handler_unmarshal_error (config : Config) (world : World) (rl : rateLimit)
    (r : Request) (body : String) (e : error) (hm : r.Method = "POST")
    (hcan : (rl.CanRun world.Now).1 = true) (hbody : r.Body = .ok body)
    (hun : world.Unmarshal body = .error e) :
    refreshHandler config world rl r =
      ((rl.CanRun world.Now).2, [.WriteHeader StatusInternalServerError]) := by
  unfold refreshHandler
  simp only [ne_eq, hm, not_true_eq_false, if_false, hcan, Bool.not_true, hbody,
    Bool.false_eq_true, hun]

theorem handler_bad_ref (config : Config) (world : World) (rl : rateLimit)
    (r : Request) (body : String) (payload : WebhookPayload) (hm : r.Method = "POST")
    (hcan : (rl.CanRun world.Now).1 = true) (hbody : r.Body = .ok body)
    (hun : world.Unmarshal body = .ok payload)
    (href : HasPrefix payload.Ref refPrefix = false) :
    refreshHandler config world rl r =
      ((rl.CanRun world.Now).2, [.WriteHeader StatusBadRequest]) := by
  unfold refreshHandler
  simp only [ne_eq, hm, not_true_eq_false, if_false, hcan, Bool.not_true, hbody,
    Bool.false_eq_true, hun, href, Bool.not_false, if_true]

theorem handler_resolved (config : Config) (world : World) (rl : rateLimit)
    (r : Request) (body : String) (payload : WebhookPayload) (hm : r.Method = "POST")
    (hcan : (rl.CanRun world.Now).1 = true) (hbody : r.Body = .ok body)
    (hun : world.Unmarshal body = .ok payload)
    (href : HasPrefix payload.Ref refPrefix = true) :
    refreshHandler config world rl r =
      if (findTargetDir (TrimPrefix payload.Ref refPrefix) config.BranchConfigs
          { GitURL := config.GitURL, GitBranch := TrimPrefix payload.Ref refPrefix,
            TargetDir := "" }).TargetDir = "" then
        ((rl.CanRun world.Now).2, [.WriteHeader StatusOK])
      else
        match (refreshSite world (findTargetDir (TrimPrefix payload.Ref refPrefix)
          config.BranchConfigs
          { GitURL := config.GitURL, GitBranch := TrimPrefix payload.Ref refPrefix,
            TargetDir := "" })).1 with
        | some _ =>
          ((rl.CanRun world.Now).2,
            .RefreshSite (findTargetDir (TrimPrefix payload.Ref refPrefix)
              config.BranchConfigs
              { GitURL := config.GitURL, GitBranch := TrimPrefix payload.Ref refPrefix,
                TargetDir := "" }) ::
            (refreshSite world (findTargetDir (TrimPrefix payload.Ref refPrefix)
              config.BranchConfigs
              { GitURL := config.GitURL, GitBranch := TrimPrefix payload.Ref refPrefix,
                TargetDir := "" })).2 ++ [.WriteHeader StatusInternalServerError])
        | none =>
          ((rl.CanRun world.Now).2,
            .RefreshSite (findTargetDir (TrimPrefix payload.Ref refPrefix)
              config.BranchConfigs
              { GitURL := config.GitURL, GitBranch := TrimPrefix payload.Ref refPrefix,
                TargetDir := "" }) ::
            (refreshSite world (findTargetDir (TrimPrefix payload.Ref refPrefix)
              config.BranchConfigs
              { GitURL := config.GitURL, GitBranch := TrimPrefix payload.Ref refPrefix,
                TargetDir := "" })).2 ++ [.WriteHeader StatusOK]) := by
  unfold refreshHandler
  simp only [ne_eq, hm, not_true_eq_false, if_false, hcan, Bool.not_true, hbody,
    Bool.false_eq_true, hun, href]

theorem exists_firstMatch (l : List BranchConfig) (b : String)
    (h : ∃ bc ∈ l, bc.Branch = b) : ∃ bc, FirstMatch l b bc := by
  induction l with
  | nil => simp at h
  | cons x rest ih =>
    by_cases hx : x.Branch = b
    · exact ⟨x, [], rest, rfl, by simp, hx⟩
    · have hrest : ∃ bc ∈ rest, bc.Branch = b := by
        obtain ⟨bc, hmem, hbc⟩ := h
        rcases List.mem_cons.mp hmem with rfl | hmem
        · exact absurd hbc hx
        · exact ⟨bc, hmem, hbc⟩
      obtain ⟨bc, pre, post, hsplit, hpre, hbc⟩ := ih hrest
      refine ⟨bc, x :: pre, post, by rw [hsplit]; rfl, ?_, hbc⟩
      intro y hy
      rcases List.mem_cons.mp hy with rfl | hy
      · exact hx
      · exact hpre y hy

theorem FirstMatch.mem {l : List BranchConfig} {b : String} {bc : BranchConfig}
    (h : FirstMatch l b bc) : bc ∈ l ∧ bc.Branch = b := by
  obtain ⟨pre, post, hsplit, _, hbc⟩ := h
  exact ⟨by rw [hsplit]; simp, hbc⟩

theorem request_cases (config : Config) (world : World) (rl : rateLimit) (r : Request) :
    r.Method ≠ "POST" ∨
    (r.Method = "POST" ∧ (rl.CanRun world.Now).1 = false) ∨
    (r.Method = "POST" ∧ (rl.CanRun world.Now).1 = true ∧ ∃ e, r.Body = .error e) ∨
    (r.Method = "POST" ∧ (rl.CanRun world.Now).1 = true ∧
      ∃ body e, r.Body = .ok body ∧ world.Unmarshal body = .error e) ∨
    (r.Method = "POST" ∧ (rl.CanRun world.Now).1 = true ∧
      ∃ body payload, r.Body = .ok body ∧ world.Unmarshal body = .ok payload ∧
        HasPrefix payload.Ref refPrefix = false) ∨
    (∃ b, Resolves world rl r b ∧ ∀ bc ∈ config.BranchConfigs, bc.Branch ≠ b) ∨
    (∃ b bc, Resolves world rl r b ∧ FirstMatch config.BranchConfigs b bc) := by
  by_cases hm : r.Method = "POST"
  · right
    cases hcan : (rl.CanRun world.Now).1 with
    | false => exact Or.inl ⟨hm, rfl⟩
    | true =>
      right
      cases hbody : r.Body with
      | error e => exact Or.inl ⟨hm, rfl, e, rfl⟩
      | ok body =>
        right
        cases hun : world.Unmarshal body with
        | error e => exact Or.inl ⟨hm, rfl, body, e, rfl, hun⟩
        | ok payload =>
          right
          cases href : HasPrefix payload.Ref refPrefix with
          | false => exact Or.inl ⟨hm, rfl, body, payload, rfl, hun, href⟩
          | true =>
            right
            obtain ⟨b, hb⟩ := (HasPrefix_iff _ _).mp href
            have hres : Resolves world rl r b := ⟨hm, hcan, body, payload, hbody, hun, hb⟩
            by_cases hex : ∃ bc ∈ config.BranchConfigs, bc.Branch = b
            · obtain ⟨bc, hfm⟩ := exists_firstMatch _ _ hex
              exact Or.inr ⟨b, bc, hres, hfm⟩
            · refine Or.inl ⟨b, hres, ?_⟩
              intro bc hbc heq
              exact hex ⟨bc, hbc, heq⟩
  · exact Or.inl hm

theorem handler_untracked (config : Config) (world : World) (rl : rateLimit) (r : Request)
    (b : String) (hres : Resolves world rl r b)
    (hno : ∀ bc ∈ config.BranchConfigs, bc.Branch ≠ b) :
    refreshHandler config world rl r = ((rl.CanRun world.Now).2, [.WriteHeader StatusOK]) := by
  obtain ⟨hm, hcan, body, payload, hbody, hun, href⟩ := hres
  have hpre : HasPrefix payload.Ref refPrefix = true := (HasPrefix_iff _ _).mpr ⟨b, href⟩
  have htrim : TrimPrefix payload.Ref refPrefix = b := by
    rw [href]
    exact TrimPrefix_append _ _
  rw [handler_resolved config world rl r body payload hm hcan hbody hun hpre, htrim,
    findTargetDir_of_no_match b _ _ hno]
  simp

theorem handler_tracked_of_dir (config : Config) (world : World)
    (rl : rateLimit) (r : Request) (b : String) (bc : BranchConfig)
    (hres : Resolves world rl r b) (hfm : FirstMatch config.BranchConfigs b bc)
    (hdir : bc.TargetDir ≠ "") :
    refreshHandler config world rl r =
      ((rl.CanRun world.Now).2,
        .RefreshSite { GitURL := config.GitURL, GitBranch := b, TargetDir := bc.TargetDir } ::
          (refreshSite world
            { GitURL := config.GitURL, GitBranch := b, TargetDir := bc.TargetDir }).2 ++
          [.WriteHeader
            (match (refreshSite world
                { GitURL := config.GitURL, GitBranch := b, TargetDir := bc.TargetDir }).1 with
              | some _ => StatusInternalServerError
              | none => StatusOK)]) := by
  obtain ⟨hm, hcan, body, payload, hbody, hun, href⟩ := hres
  obtain ⟨pre, post, hsplit, hpre, hbc⟩ := hfm
  have hhas : HasPrefix payload.Ref refPrefix = true := (HasPrefix_iff _ _).mpr ⟨b, href⟩
  have htrim : TrimPrefix payload.Ref refPrefix = b := by
    rw [href]
    exact TrimPrefix_append _ _
  rw [handler_resolved config world rl r body payload hm hcan hbody hun hhas, htrim, hsplit,
    findTargetDir_of_first_match b _ pre bc post hpre hbc]
  simp only [hdir, if_false]
  cases (refreshSite world
    { GitURL := config.GitURL, GitBranch := b, TargetDir := bc.TargetDir }).1 <;> rfl

theorem handler_empty_dir (config : Config) (world : World)
    (rl : rateLimit) (r : Request) (b : String) (bc : BranchConfig)
    (hres : Resolves world rl r b) (hfm : FirstMatch config.BranchConfigs b bc)
    (hdir : bc.TargetDir = "") :
    refreshHandler config world rl r = ((rl.CanRun world.Now).2, [.WriteHeader StatusOK]) := by
  obtain ⟨hm, hcan, body, payload, hbody, hun, href⟩ := hres
  obtain ⟨pre, post, hsplit, hpre, hbc⟩ := hfm
  have hhas : HasPrefix payload.Ref refPrefix = true := (HasPrefix_iff _ _).mpr ⟨b, href⟩
  have htrim : TrimPrefix payload.Ref refPrefix = b := by
    rw [href]
    exact TrimPrefix_append _ _
  rw [handler_resolved config world rl r body payload hm hcan hbody hun hhas, htrim, hsplit,
    findTargetDir_of_first_match b _ pre bc post hpre hbc]
  simp only [hdir, if_true]

theorem Validate_targetDir_ne (config : Config) (hv : config.Validate = none) (b : String)
    (bc : BranchConfig) (hfm : FirstMatch config.BranchConfigs b bc) : bc.TargetDir ≠ "" :=
  (((Validate_eq_none_iff config).mp hv).2.2.2 bc hfm.mem.1).2

theorem handler_tracked (config : Config) (hv : config.Validate = none) (world : World)
    (rl : rateLimit) (r : Request) (b : String) (bc : BranchConfig)
    (hres : Resolves world rl r b) (hfm : FirstMatch config.BranchConfigs b bc) :
    refreshHandler config world rl r =
      ((rl.CanRun world.Now).2,
        .RefreshSite { GitURL := config.GitURL, GitBranch := b, TargetDir := bc.TargetDir } ::
          (refreshSite world
            { GitURL := config.GitURL, GitBranch := b, TargetDir := bc.TargetDir }).2 ++
          [.WriteHeader
            (match (refreshSite world
                { GitURL := config.GitURL, GitBranch := b, TargetDir := bc.TargetDir }).1 with
              | some _ => StatusInternalServerError
              | none => StatusOK)]) :=
  handler_tracked_of_dir config world rl r b bc hres hfm
    (Validate_targetDir_ne config hv b bc hfm)

theorem statuses_append (a b : List Event) :
    statuses (a ++ b) = statuses a ++ statuses b := by
  induction a with
  | nil => rfl
  | cons e rest ih => cases e <;> simp [statuses, ih]

theorem refreshCalls_append (a b : List Event) :
    refreshCalls (a ++ b) = refreshCalls a ++ refreshCalls b := by
  induction a with
  | nil => rfl
  | cons e rest ih => cases e <;> simp [refreshCalls, ih]

theorem refreshSite_events (world : World) (opts : options) :
    statuses (refreshSite world opts).2 = [] ∧ refreshCalls (refreshSite world opts).2 = [] := by
  cases htmp : world.TempDir with
  | error e =>
    rw [refreshSite_of_tempDir_error world opts e htmp]
    exact ⟨rfl, rfl⟩
  | ok tmpDir =>
    cases hgit : world.Run (gitCmd opts tmpDir) with
    | some e =>
      rw [refreshSite_of_git_error world opts tmpDir e htmp hgit]
      exact ⟨rfl, rfl⟩
    | none =>
      cases hrsync : world.Run (rsyncCmd opts tmpDir) with
      | some e =>
        rw [refreshSite_of_rsync_error world opts tmpDir e htmp hgit hrsync]
        exact ⟨rfl, rfl⟩
      | none =>
        rw [refreshSite_of_success world opts tmpDir htmp hgit hrsync]
        exact ⟨rfl, rfl⟩

theorem handler_tracked_statuses (config : Config) (hv : config.Validate = none)
    (world : World) (rl : rateLimit) (r : Request) (b : String) (bc : BranchConfig)
    (hres : Resolves world rl r b) (hfm : FirstMatch config.BranchConfigs b bc) :
    statuses (refreshHandler config world rl r).2 =
      [match (refreshSite world
          { GitURL := config.GitURL, GitBranch := b, TargetDir := bc.TargetDir }).1 with
        | some _ => 500
        | none => 200] := by
  rw [handler_tracked config hv world rl r b bc hres hfm]
  show statuses ((refreshSite world _).2 ++ [_]) = _
  rw [statuses_append, (refreshSite_events world _).1]
  cases (refreshSite world
    { GitURL := config.GitURL, GitBranch := b, TargetDir := bc.TargetDir }).1 <;> rfl

theorem handler_tracked_refreshCalls (config : Config) (hv : config.Validate = none)
    (world : World) (rl : rateLimit) (r : Request) (b : String) (bc : BranchConfig)
    (hres : Resolves world rl r b) (hfm : FirstMatch config.BranchConfigs b bc) :
    refreshCalls (refreshHandler config world rl r).2 =
      [{ GitURL := config.GitURL, GitBranch := b, TargetDir := bc.TargetDir }] := by
  rw [handler_tracked config hv world rl r b bc hres hfm]
  show _ :: refreshCalls ((refreshSite world _).2 ++ [_]) = _
  rw [refreshCalls_append, (refreshSite_events world _).2]
  rfl

theorem handler_tracked_refreshCalls_of_dir (config : Config)
    (world : World) (rl : rateLimit) (r : Request) (b : String) (bc : BranchConfig)
    (hres : Resolves world rl r b) (hfm : FirstMatch config.BranchConfigs b bc)
    (hdir : bc.TargetDir ≠ "") :
    refreshCalls (refreshHandler config world rl r).2 =
      [{ GitURL := config.GitURL, GitBranch := b, TargetDir := bc.TargetDir }] := by
  rw [handler_tracked_of_dir config world rl r b bc hres hfm hdir]
  show _ :: refreshCalls ((refreshSite world _).2 ++ [_]) = _
  rw [refreshCalls_append, (refreshSite_events world _).2]
  rfl

/-- C6: branch resolution is first-match-wins.  The loop of the handler sets
the target directory to the target_dir of the first mapping whose branch
equals `b`, whatever mappings follow it, and leaves it empty (no directory
selected) when no mapping's branch equals `b`; it changes nothing else.  A
request that resolves to `b` is refreshed into the first match's directory
(when that is not the empty string, which the handler reads as no directory),
and is answered 200 without a refresh when no mapping matches.  With mappings
main to /srv/a and dev to /srv/b, dev resolves to /srv/b, staging to nothing,
and a second mapping for main does not change the result /srv/a. -/
theorem findTargetDir_first_match (b : String) (url : String) :
    (∀ (pre : List BranchConfig) (bc : BranchConfig) (post : List BranchConfig),
      (∀ x ∈ pre, x.Branch ≠ b) → bc.Branch = b →
        findTargetDir b (pre ++ bc :: post) { GitURL := url, GitBranch := b, TargetDir := "" } =
          { GitURL := url, GitBranch := b, TargetDir := bc.TargetDir }) ∧
    (∀ l : List BranchConfig, (∀ x ∈ l, x.Branch ≠ b) →
        findTargetDir b l { GitURL := url, GitBranch := b, TargetDir := "" } =
          { GitURL := url, GitBranch := b, TargetDir := "" }) ∧
    (∀ (config : Config) (world : World) (rl : rateLimit) (r : Request),
      Resolves world rl r b →
        (∀ bc, FirstMatch config.BranchConfigs b bc → bc.TargetDir ≠ "" →
          refreshCalls (refreshHandler config world rl r).2 =
            [{ GitURL := config.GitURL, GitBranch := b, TargetDir := bc.TargetDir }]) ∧
        (∀ bc, FirstMatch config.BranchConfigs b bc → bc.TargetDir = "" →
          refreshHandler config world rl r =
            ((rl.CanRun world.Now).2, [.WriteHeader 200])) ∧
        ((∀ bc ∈ config.BranchConfigs, bc.Branch ≠ b) →
          refreshHandler config world rl r =
            ((rl.CanRun world.Now).2, [.WriteHeader 200]))) ∧
    (findTargetDir "dev" [⟨"main", "/srv/a"⟩, ⟨"dev", "/srv/b"⟩]
        { GitURL := url, GitBranch := "dev", TargetDir := "" }).TargetDir = "/srv/b" ∧
    (findTargetDir "staging" [⟨"main", "/srv/a"⟩, ⟨"dev", "/srv/b"⟩]
        { GitURL := url, GitBranch := "staging", TargetDir := "" }).TargetDir = "" ∧
    (findTargetDir "main" [⟨"main", "/srv/a"⟩, ⟨"dev", "/srv/b"⟩, ⟨"main", "/srv/c"⟩]
        { GitURL := url, GitBranch := "main", TargetDir := "" }).TargetDir = "/srv/a" := by
  refine ⟨?_, ?_, ?_, ?_, ?_, ?_⟩
  · intro pre bc post hpre hbc
    exact findTargetDir_of_first_match b _ pre bc post hpre hbc
  · intro l hl
    exact findTargetDir_of_no_match b _ l hl
  · intro config world rl r hres
    refine ⟨?_, ?_, ?_⟩
    · intro bc hfm hdir
      exact handler_tracked_refreshCalls_of_dir config world rl r b bc hres hfm hdir
    · intro bc hfm hdir
      exact handler_empty_dir config world rl r b bc hres hfm hdir
    · intro hno
      exact handler_untracked config world rl r b hres hno
  · simp [findTargetDir]
  · simp [findTargetDir]
  · simp [findTargetDir]

/-- Witness for C6: the mappings of the specification, with a later duplicate
for dev. -/
theorem findTargetDir_first_match_witness :
    findTargetDir "dev" ([⟨"main", "/srv/a"⟩] ++ ⟨"dev", "/srv/b"⟩ :: [⟨"dev", "/srv/z"⟩])
        { GitURL := "u", GitBranch := "dev", TargetDir := "" } =
      { GitURL := "u", GitBranch := "dev", TargetDir := "/srv/b" } :=
  (findTargetDir_first_match "dev" "u").1 [⟨"main", "/srv/a"⟩] ⟨"dev", "/srv/b"⟩
    [⟨"dev", "/srv/z"⟩] (by decide) rfl

theorem parseConfig_ok (s : Startup) (config : Config) (h : parseConfig s = .ok config) :
    config.Validate = none := by
  unfold parseConfig at h
  split at h
  · cases h
  · simp only at h
    split at h
    · cases h
    · split at h
      · cases h
      · split at h
        · cases h
        · rename_i hval
          cases h
          exact hval

/-- The request is answered before the branch is resolved: it is not a POST,
or the limiter refuses it, or its body cannot be read or parsed, or its ref
does not start with `refs/heads/`.  Then no refresh is attempted and the
status is not 200. -/
theorem handler_early_exit (config : Config) (world : World) (rl : rateLimit) (r : Request)
    (h : r.Method ≠ "POST" ∨
      (r.Method = "POST" ∧ (rl.CanRun world.Now).1 = false) ∨
      (r.Method = "POST" ∧ (rl.CanRun world.Now).1 = true ∧ ∃ e, r.Body = .error e) ∨
      (r.Method = "POST" ∧ (rl.CanRun world.Now).1 = true ∧
        ∃ body e, r.Body = .ok body ∧ world.Unmarshal body = .error e) ∨
      (r.Method = "POST" ∧ (rl.CanRun world.Now).1 = true ∧
        ∃ body payload, r.Body = .ok body ∧ world.Unmarshal body = .ok payload ∧
          HasPrefix payload.Ref refPrefix = false)) :
    refreshCalls (refreshHandler config world rl r).2 = [] ∧
    ∃ status, statuses (refreshHandler config world rl r).2 = [status] ∧ status ≠ 200 := by
  rcases h with hm | ⟨hm, hcan⟩ | ⟨hm, hcan, e, hbody⟩ | ⟨hm, hcan, body, e, hbody, hun⟩ |
    ⟨hm, hcan, body, payload, hbody, hun, href⟩
  · rw [handler_not_post config world rl r hm]
    exact ⟨rfl, 405, rfl, by decide⟩
  · rw [handler_refused config world rl r hm hcan]
    exact ⟨rfl, 500, rfl, by decide⟩
  · rw [handler_body_error config world rl r e hm hcan hbody]
    exact ⟨rfl, 500, rfl, by decide⟩
  · rw [handler_unmarshal_error config world rl r body e hm hcan hbody hun]
    exact ⟨rfl, 500, rfl, by decide⟩
  · rw [handler_bad_ref config world rl r body payload hm hcan hbody hun href]
    exact ⟨rfl, 400, rfl, by decide⟩

theorem HasPrefix_eq_false (s pre : String) (h : ¬ ∃ b, s = pre ++ b) :
    HasPrefix s pre = false := by
  cases hp : HasPrefix s pre with
  | false => rfl
  | true => exact absurd ((HasPrefix_iff s pre).mp hp) h

/-- C7: the handler writes exactly one status, decided by the first failing
step: 405 if the method is not POST; otherwise 500 if the limiter refuses;
otherwise 500 if the body cannot be read or parsed; otherwise 400 if the ref
does not start with `refs/heads/` (as `refs/tags/v1`); otherwise 200 if no
mapping matches the branch; otherwise 500 if the refresh fails and 200 if it
succeeds.  The status is 200 only when the site was refreshed or the branch is
not tracked.  The configuration is one `parseConfig` returned. -/
theorem handler_status (s : Startup) (config : Config) (hcfg : parseConfig s = .ok config)
    (world : World) (rl : rateLimit) (r : Request) :
    (∃ status, statuses (refreshHandler config world rl r).2 = [status]) ∧
    (r.Method ≠ "POST" → statuses (refreshHandler config world rl r).2 = [405]) ∧
    (r.Method = "POST" → (rl.CanRun world.Now).1 = false →
      statuses (refreshHandler config world rl r).2 = [500]) ∧
    (r.Method = "POST" → (rl.CanRun world.Now).1 = true →
      (∀ e, r.Body = .error e → statuses (refreshHandler config world rl r).2 = [500]) ∧
      (∀ body e, r.Body = .ok body → world.Unmarshal body = .error e →
        statuses (refreshHandler config world rl r).2 = [500]) ∧
      (∀ body payload, r.Body = .ok body → world.Unmarshal body = .ok payload →
        (¬ ∃ b, payload.Ref = "refs/heads/" ++ b) →
        statuses (refreshHandler config world rl r).2 = [400])) ∧
    (∀ b, Resolves world rl r b →
      ((∀ bc ∈ config.BranchConfigs, bc.Branch ≠ b) →
        statuses (refreshHandler config world rl r).2 = [200]) ∧
      (∀ bc, FirstMatch config.BranchConfigs b bc →
        ((∃ e, (refreshSite world
            { GitURL := config.GitURL, GitBranch := b, TargetDir := bc.TargetDir }).1 = some e) →
          statuses (refreshHandler config world rl r).2 = [500]) ∧
        ((refreshSite world
            { GitURL := config.GitURL, GitBranch := b, TargetDir := bc.TargetDir }).1 = none →
          statuses (refreshHandler config world rl r).2 = [200]))) ∧
    (statuses (refreshHandler config world rl r).2 = [200] →
      (∃ opts, refreshCalls (refreshHandler config world rl r).2 = [opts] ∧
        (refreshSite world opts).1 = none) ∨
      (∃ b, Resolves world rl r b ∧ ∀ bc ∈ config.BranchConfigs, bc.Branch ≠ b)) ∧
    (¬ ∃ b, "refs/tags/v1" = "refs/heads/" ++ b) := by
  have hv : config.Validate = none := parseConfig_ok s config hcfg
  refine ⟨?_, ?_, ?_, ?_, ?_, ?_, ?_⟩
  · rcases request_cases config world rl r with h | h | h | h | h | ⟨b, hres, hno⟩ |
      ⟨b, bc, hres, hfm⟩
    · obtain ⟨status, hst, _⟩ := (handler_early_exit config world rl r (Or.inl h)).2
      exact ⟨status, hst⟩
    · obtain ⟨status, hst, _⟩ :=
        (handler_early_exit config world rl r (Or.inr (Or.inl h))).2
      exact ⟨status, hst⟩
    · obtain ⟨status, hst, _⟩ :=
        (handler_early_exit config world rl r (Or.inr (Or.inr (Or.inl h)))).2
      exact ⟨status, hst⟩
    · obtain ⟨status, hst, _⟩ :=
        (handler_early_exit config world rl r (Or.inr (Or.inr (Or.inr (Or.inl h))))).2
      exact ⟨status, hst⟩
    · obtain ⟨status, hst, _⟩ :=
        (handler_early_exit config world rl r (Or.inr (Or.inr (Or.inr (Or.inr h))))).2
      exact ⟨status, hst⟩
    · rw [handler_untracked config world rl r b hres hno]
      exact ⟨200, rfl⟩
    · rw [handler_tracked_statuses config hv world rl r b bc hres hfm]
      exact ⟨_, rfl⟩
  · intro hm
    rw [handler_not_post config world rl r hm]
    rfl
  · intro hm hcan
    rw [handler_refused config world rl r hm hcan]
    rfl
  · intro hm hcan
    refine ⟨?_, ?_, ?_⟩
    · intro e hbody
      rw [handler_body_error config world rl r e hm hcan hbody]
      rfl
    · intro body e hbody hun
      rw [handler_unmarshal_error config world rl r body e hm hcan hbody hun]
      rfl
    · intro body payload hbody hun href
      rw [handler_bad_ref config world rl r body payload hm hcan hbody hun
        (HasPrefix_eq_false _ _ href)]
      rfl
  · intro b hres
    refine ⟨?_, ?_⟩
    · intro hno
      rw [handler_untracked config world rl r b hres hno]
      rfl
    · intro bc hfm
      rw [handler_tracked_statuses config hv world rl r b bc hres hfm]
      constructor
      · rintro ⟨e, he⟩
        rw [he]
      · intro hnone
        rw [hnone]
  · intro h200
    rcases request_cases config world rl r with h | h | h | h | h | ⟨b, hres, hno⟩ |
      ⟨b, bc, hres, hfm⟩
    · obtain ⟨status, hst, hne⟩ := (handler_early_exit config world rl r (Or.inl h)).2
      rw [hst] at h200
      exact absurd (List.head_eq_of_cons_eq h200) hne
    · obtain ⟨status, hst, hne⟩ :=
        (handler_early_exit config world rl r (Or.inr (Or.inl h))).2
      rw [hst] at h200
      exact absurd (List.head_eq_of_cons_eq h200) hne
    · obtain ⟨status, hst, hne⟩ :=
        (handler_early_exit config world rl r (Or.inr (Or.inr (Or.inl h)))).2
      rw [hst] at h200
      exact absurd (List.head_eq_of_cons_eq h200) hne
    · obtain ⟨status, hst, hne⟩ :=
        (handler_early_exit config world rl r (Or.inr (Or.inr (Or.inr (Or.inl h))))).2
      rw [hst] at h200
      exact absurd (List.head_eq_of_cons_eq h200) hne
    · obtain ⟨status, hst, hne⟩ :=
        (handler_early_exit config world rl r (Or.inr (Or.inr (Or.inr (Or.inr h))))).2
      rw [hst] at h200
      exact absurd (List.head_eq_of_cons_eq h200) hne
    · exact Or.inr ⟨b, hres, hno⟩
    · left
      refine ⟨_, handler_tracked_refreshCalls config hv world rl r b bc hres hfm, ?_⟩
      rw [handler_tracked_statuses config hv world rl r b bc hres hfm] at h200
      cases hrs : (refreshSite world
          { GitURL := config.GitURL, GitBranch := b, TargetDir := bc.TargetDir }).1 with
      | none => rfl
      | some e =>
        rw [hrs] at h200
        simp at h200
  · intro h
    have := (HasPrefix_iff "refs/tags/v1" "refs/heads/").mpr h
    revert this
    decide

/-- C9: for a configuration that passes `Validate`, the handler invokes
`refreshSite` exactly when the method is POST, the limiter permits the call,
the body parses, the ref is `refs/heads/` followed by a branch name and some
mapping has that branch; it then invokes it exactly once, with the configured
git_url, the branch name (`refs/heads/main` gives `main`) and the first
matching mapping's target_dir.  In every other case no refresh is attempted. -/
theorem refresh_invoked_iff (config : Config) (hv : config.Validate = none)
    (world : World) (rl : rateLimit) (r : Request) :
    (refreshCalls (refreshHandler config world rl r).2 ≠ [] ↔
      ∃ b, Resolves world rl r b ∧ ∃ bc ∈ config.BranchConfigs, bc.Branch = b) ∧
    (∀ b bc, Resolves world rl r b → FirstMatch config.BranchConfigs b bc →
      refreshCalls (refreshHandler config world rl r).2 =
        [{ GitURL := config.GitURL, GitBranch := b, TargetDir := bc.TargetDir }]) ∧
    ((¬ ∃ b, Resolves world rl r b ∧ ∃ bc ∈ config.BranchConfigs, bc.Branch = b) →
      refreshCalls (refreshHandler config world rl r).2 = []) ∧
    TrimPrefix "refs/heads/main" refPrefix = "main" := by
  have hnone : (¬ ∃ b, Resolves world rl r b ∧ ∃ bc ∈ config.BranchConfigs, bc.Branch = b) →
      refreshCalls (refreshHandler config world rl r).2 = [] := by
    intro hnot
    rcases request_cases config world rl r with h | h | h | h | h | ⟨b, hres, hno⟩ |
      ⟨b, bc, hres, hfm⟩
    · exact (handler_early_exit config world rl r (Or.inl h)).1
    · exact (handler_early_exit config world rl r (Or.inr (Or.inl h))).1
    · exact (handler_early_exit config world rl r (Or.inr (Or.inr (Or.inl h)))).1
    · exact (handler_early_exit config world rl r (Or.inr (Or.inr (Or.inr (Or.inl h))))).1
    · exact (handler_early_exit config world rl r (Or.inr (Or.inr (Or.inr (Or.inr h))))).1
    · rw [handler_untracked config world rl r b hres hno]
      rfl
    · exact absurd ⟨b, hres, bc, hfm.mem.1, hfm.mem.2⟩ hnot
  refine ⟨⟨?_, ?_⟩, ?_, hnone, ?_⟩
  · intro hne
    by_contra hnot
    exact hne (hnone hnot)
  · rintro ⟨b, hres, hex⟩
    obtain ⟨bc, hfm⟩ := exists_firstMatch _ _ hex
    rw [handler_tracked_refreshCalls config hv world rl r b bc hres hfm]
    simp
  · intro b bc hres hfm
    exact handler_tracked_refreshCalls config hv world rl r b bc hres hfm
  · decide

/-- Witness for C7: a push to the tracked branch dev with succeeding commands
is answered 200. -/
theorem handler_status_witness :
    parseConfig exampleStartup = .ok exampleConfig ∧
    statuses (refreshHandler exampleConfig (exampleWorld 1700000000 "refs/heads/dev")
      (newRateLimit 10) examplePost).2 = [200] :=
  ⟨rfl,
    (((handler_status exampleStartup exampleConfig rfl
      (exampleWorld 1700000000 "refs/heads/dev") (newRateLimit 10) examplePost).2.2.2.2.1
      "dev" ⟨rfl, by decide, "body", ⟨"refs/heads/dev"⟩, rfl, rfl, by decide⟩).2
      ⟨"dev", "/srv/b"⟩ ⟨[⟨"main", "/srv/a"⟩], [], rfl, by decide, rfl⟩).2 (by decide)⟩

/-- Witness for C9: a push to the tracked branch dev invokes `refreshSite`
once, with the configured URL, the branch dev and the directory /srv/b. -/
theorem refresh_invoked_iff_witness :
    exampleConfig.Validate = none ∧
    refreshCalls (refreshHandler exampleConfig (exampleWorld 1700000000 "refs/heads/dev")
      (newRateLimit 10) examplePost).2 =
      [{ GitURL := "https://example.org/site.git", GitBranch := "dev", TargetDir := "/srv/b" }] :=
  ⟨by decide,
    (refresh_invoked_iff exampleConfig (by decide)
      (exampleWorld 1700000000 "refs/heads/dev") (newRateLimit 10) examplePost).2.1
      "dev" ⟨"dev", "/srv/b"⟩ ⟨rfl, by decide, "body", ⟨"refs/heads/dev"⟩, rfl, rfl, by decide⟩
      ⟨[⟨"main", "/srv/a"⟩], [], rfl, by decide, rfl⟩⟩

/-! ## The handler and the limiter -/

theorem handler_state_post (config : Config) (world : World) (rl : rateLimit) (r : Request)
    (hm : r.Method = "POST") :
    (refreshHandler config world rl r).1 = (rl.CanRun world.Now).2 := by
  cases hcan : (rl.CanRun world.Now).1 with
  | false =>
    rw [handler_refused config world rl r hm hcan, CanRun_refused_state rl world.Now hcan]
  | true =>
    cases hbody : r.Body with
    | error e => rw [handler_body_error config world rl r e hm hcan hbody]
    | ok body =>
      cases hun : world.Unmarshal body with
      | error e => rw [handler_unmarshal_error config world rl r body e hm hcan hbody hun]
      | ok payload =>
        cases href : HasPrefix payload.Ref refPrefix with
        | false => rw [handler_bad_ref config world rl r body payload hm hcan hbody hun href]
        | true =>
          rw [handler_resolved config world rl r body payload hm hcan hbody hun href]
          split
          · rfl
          · split <;> rfl

theorem handler_blocked (config : Config) (world : World) (rl : rateLimit) (r : Request)
    (hi : rl.Interval = 10) (hlo : minInt64 + 10 ≤ world.Now.val)
    (hlt : world.Now.val < rl.LastRun.val + 10) :
    (refreshHandler config world rl r).1 = rl ∧
    refreshCalls (refreshHandler config world rl r).2 = [] := by
  by_cases hm : r.Method = "POST"
  · have hcan : (rl.CanRun world.Now).1 = false := by
      rw [CanRun_ten rl world.Now hi hlo, if_pos (by omega)]
    rw [handler_refused config world rl r hm hcan]
    exact ⟨rfl, rfl⟩
  · rw [handler_not_post config world rl r hm]
    exact ⟨rfl, rfl⟩

theorem serve_blocked (config : Config) (rl : rateLimit) (hi : rl.Interval = 10)
    (later : List (World × Request))
    (h : ∀ q ∈ later, minInt64 + 10 ≤ q.1.Now.val ∧ q.1.Now.val < rl.LastRun.val + 10) :
    refreshCalls (serve config rl later).1 = [] := by
  induction later with
  | nil => rfl
  | cons q rest ih =>
    obtain ⟨world, r⟩ := q
    have hq := h (world, r) (List.mem_cons_self _ _)
    have hb := handler_blocked config world rl r hi hq.1 hq.2
    simp only [serve, refreshCalls_append, hb.1, hb.2, List.nil_append]
    exact ih (fun q hq => h q (List.mem_cons_of_mem _ hq))

theorem refreshHandler_eq_afterCanRun (config : Config) (world : World) (rl : rateLimit)
    (r : Request) (hm : r.Method = "POST") (hcan : (rl.CanRun world.Now).1 = true) :
    refreshHandler config world rl r = ((rl.CanRun world.Now).2, afterCanRun config world r) := by
  unfold refreshHandler afterCanRun
  simp only [ne_eq, hm, not_true_eq_false, if_false, hcan, Bool.not_true, Bool.false_eq_true]
  cases r.Body with
  | error e => rfl
  | ok bodyContent =>
    simp only
    cases world.Unmarshal bodyContent with
    | error e => rfl
    | ok payload =>
      simp only
      split
      · rfl
      · split
        · rfl
        · split <;> rfl

theorem step_step_received (config : Config) (world : World) (rl : rateLimit)
    (r : Request) :
    Goroutine.step config (Goroutine.step config rl (.received world r)).1
        (Goroutine.step config rl (.received world r)).2 =
      ((refreshHandler config world rl r).1,
        .responded (refreshHandler config world rl r).2) := by
  by_cases hm : r.Method = "POST"
  · by_cases hlt : (int64.sub world.Now rl.Interval).val < rl.LastRun.val
    · have hcan : (rl.CanRun world.Now).1 = false := by simp [rateLimit.CanRun, hlt]
      rw [handler_refused config world rl r hm hcan]
      simp [Goroutine.step, hm, hlt]
    · have hcan : (rl.CanRun world.Now).1 = true := by simp [rateLimit.CanRun, hlt]
      rw [refreshHandler_eq_afterCanRun config world rl r hm hcan,
        CanRun_permitted_state rl world.Now hcan]
      simp [Goroutine.step, hm, hlt]
  · rw [handler_not_post config world rl r hm]
    simp [Goroutine.step, hm]

/-- C10, as stated, fails in its last clause.  Two POST requests arrive in the
same second 1700000000 on a fresh limiter: the first has a bad ref, the second
pushes the tracked branch main.  When the second runs the test of `CanRun`
before the first runs its assignment (schedule 0, 1, 0, 1), both are
permitted: the first is answered 400 and sets `LastRun`, and the second is
refreshed in that same second.  Handled one at a time (schedule 0, 0, 1, 1),
the second is refused. -/
theorem handler_blocking_fails :
    (runSchedule exampleConfig (newRateLimit 10)
        [.received (exampleWorld 1700000000 "refs/tags/v1") examplePost,
          .received (exampleWorld 1700000000 "refs/heads/main") examplePost]
        [0, 1, 0, 1]).1 = { LastRun := 1700000000, Interval := 10 } ∧
    (runSchedule exampleConfig (newRateLimit 10)
        [.received (exampleWorld 1700000000 "refs/tags/v1") examplePost,
          .received (exampleWorld 1700000000 "refs/heads/main") examplePost]
        [0, 1, 0, 1]).2.map Goroutine.events =
      [[.WriteHeader 400],
        [.RefreshSite exampleMainOptions,
          .Run (gitCmd exampleMainOptions "/tmp/website-files1"),
          .Run (rsyncCmd exampleMainOptions "/tmp/website-files1"),
          .Remove "/tmp/website-files1",
          .WriteHeader 200]] ∧
    (runSchedule exampleConfig (newRateLimit 10)
        [.received (exampleWorld 1700000000 "refs/tags/v1") examplePost,
          .received (exampleWorld 1700000000 "refs/heads/main") examplePost]
        [0, 0, 1, 1]).2.map Goroutine.events =
      [[.WriteHeader 400], [.WriteHeader 500]] := by
  decide

/-- C10, amended: a non-POST request leaves the limiter unchanged; a POST the
limiter refuses leaves it unchanged; every POST the limiter permits sets
`LastRun` to the current time, whatever happens next (whichever status the
request ends in), and leaves `Interval` unchanged; and with `Interval = 10`,
when requests are handled one at a time, after a permitted POST at time `now`
no request handled at a clock reading below `now + 10` (and not below
`-2^63 + 10`, as every reading of the system clock is) is refreshed.  A
request handled alone is the two steps of its goroutine run without another
goroutine between them. -/
theorem handler_limiter_effect (config : Config) (world : World) (rl : rateLimit)
    (r : Request) :
    (r.Method ≠ "POST" → (refreshHandler config world rl r).1 = rl) ∧
    (r.Method = "POST" → (rl.CanRun world.Now).1 = false →
      (refreshHandler config world rl r).1 = rl) ∧
    (r.Method = "POST" → (rl.CanRun world.Now).1 = true →
      (refreshHandler config world rl r).1 =
        { LastRun := world.Now, Interval := rl.Interval }) ∧
    (rl.Interval = 10 → r.Method = "POST" → (rl.CanRun world.Now).1 = true →
      ∀ later : List (World × Request),
        (∀ q ∈ later, minInt64 + 10 ≤ q.1.Now.val ∧ q.1.Now.val < world.Now.val + 10) →
        refreshCalls (serve config (refreshHandler config world rl r).1 later).1 = []) ∧
    Goroutine.step config (Goroutine.step config rl (.received world r)).1
        (Goroutine.step config rl (.received world r)).2 =
      ((refreshHandler config world rl r).1,
        .responded (refreshHandler config world rl r).2) := by
  refine ⟨?_, ?_, ?_, ?_, step_step_received config world rl r⟩
  · intro hm
    rw [handler_not_post config world rl r hm]
  · intro hm hcan
    rw [handler_refused config world rl r hm hcan]
  · intro hm hcan
    rw [handler_state_post config world rl r hm, CanRun_permitted_state rl world.Now hcan]
  · intro hi hm hcan later hlater
    rw [handler_state_post config world rl r hm, CanRun_permitted_state rl world.Now hcan]
    exact serve_blocked config { LastRun := world.Now, Interval := rl.Interval } hi later hlater

/-- Witness for C10, amended: a POST with a bad ref at 1700000000 is answered
400, sets `LastRun`, and a push to a tracked branch handled after it, five
seconds later, is not refreshed. -/
theorem handler_limiter_effect_witness :
    refreshHandler exampleConfig (exampleWorld 1700000000 "refs/tags/v1") (newRateLimit 10)
        examplePost =
      ({ LastRun := 1700000000, Interval := 10 }, [.WriteHeader 400]) ∧
    refreshCalls (serve exampleConfig
      (refreshHandler exampleConfig (exampleWorld 1700000000 "refs/tags/v1") (newRateLimit 10)
        examplePost).1
      [(exampleWorld 1700000005 "refs/heads/main", examplePost)]).1 = [] :=
  ⟨by decide,
    (handler_limiter_effect exampleConfig (exampleWorld 1700000000 "refs/tags/v1")
      (newRateLimit 10) examplePost).2.2.2.1 rfl rfl (by decide)
      [(exampleWorld 1700000005 "refs/heads/main", examplePost)] (by decide)⟩

end DeployStaticSite
